import Mathlib

/-!
Shallow embedding of a multi-round sealed-bid auction service.

Pure domain functions (ranking, winner selection) are translated directly
from the TypeScript source.  The transactional service operations are
modelled as Lean functions over an explicit store state: a Mongo
`updateOne` / `findOneAndUpdate` with a query predicate becomes a list
update guarded by a Boolean predicate that fails (returns `none`) when no
document matches, and a failed transaction leaves the whole state
unchanged (the `withTxn` wrapper aborts on any thrown error).

Timestamps are modelled as integer milliseconds; monetary amounts as
integers (the source validates them as positive safe integers).
Identifiers are strings; the hex encoding of ObjectIds makes the string
comparison used by `compareRankableBids` agree with the byte order used by
the Mongo index sort.
-/

namespace CryptoBot

abbrev UserId := String
abbrev AuctionId := String
abbrev BidId := String

/-! ### Ranking (src/src/domain/ranking.ts) -/

structure RankableBid where
  userId : UserId
  amount : Int
  lastBidAt : Int
deriving Repr, DecidableEq

/-- `compareRankableBids` from ranking.ts: higher amount first, then earlier
`lastBidAt`, then lower `userId` (string comparison; `a.userId > b.userId`
is written as `b.userId < a.userId`). -/
def compareRankableBids (a b : RankableBid) : Int :=
  if a.amount ≠ b.amount then b.amount - a.amount
  else if a.lastBidAt ≠ b.lastBidAt then a.lastBidAt - b.lastBidAt
  else if a.userId < b.userId then -1
  else if b.userId < a.userId then 1
  else 0

/-- The non-strict order induced by the comparator; a stable sort with this
relation models the (stable) JavaScript `Array.prototype.sort` with
`compareRankableBids`. -/
def rankLE (a b : RankableBid) : Bool := compareRankableBids a b ≤ 0

structure SelectResult where
  winners : List RankableBid
  clearingPrice : Int
deriving Repr, DecidableEq

/-- `selectWinners` from ranking.ts: sort a copy of the input with the
comparator, keep the first `winnersCount` entries, and take the amount of
the last kept entry as the clearing price (0 when none). -/
def selectWinners (bids : List RankableBid) (winnersCount : Int) : SelectResult :=
  if winnersCount ≤ 0 then ⟨[], 0⟩
  else
    let sorted := bids.mergeSort rankLE
    let winners := sorted.take winnersCount.toNat
    let clearingPrice :=
      match winners.getLast? with
      | none => 0
      | some w => w.amount
    ⟨winners, clearingPrice⟩

theorem compareRankableBids_neg (a b : RankableBid) :
    compareRankableBids b a = -compareRankableBids a b := by
  unfold compareRankableBids
  by_cases h1 : a.amount = b.amount
  · by_cases h2 : a.lastBidAt = b.lastBidAt
    · rcases lt_trichotomy a.userId b.userId with hu | hu | hu
      · simp [h1, h2, hu, lt_asymm hu]
      · simp [h1, h2, hu]
      · simp [h1, h2, hu, lt_asymm hu]
    · simp [h1, h2, Ne.symm h2]
  · simp [h1, Ne.symm h1]

theorem rankLE_iff (a b : RankableBid) :
    rankLE a b = true ↔
      b.amount < a.amount ∨
        (a.amount = b.amount ∧
          (a.lastBidAt < b.lastBidAt ∨
            (a.lastBidAt = b.lastBidAt ∧ a.userId ≤ b.userId))) := by
  simp only [rankLE, decide_eq_true_eq]
  unfold compareRankableBids
  by_cases h1 : a.amount = b.amount
  · rw [if_neg (by simp [h1])]
    by_cases h2 : a.lastBidAt = b.lastBidAt
    · rw [if_neg (by simp [h2])]
      rcases lt_trichotomy a.userId b.userId with hu | hu | hu
      · rw [if_pos hu]
        constructor
        · intro _
          exact Or.inr ⟨h1, Or.inr ⟨h2, le_of_lt hu⟩⟩
        · intro _
          norm_num
      · rw [if_neg (by simp [hu]), if_neg (by simp [hu])]
        constructor
        · intro _
          exact Or.inr ⟨h1, Or.inr ⟨h2, le_of_eq hu⟩⟩
        · intro _
          norm_num
      · rw [if_neg (lt_asymm hu), if_pos hu]
        constructor
        · intro h
          norm_num at h
        · rintro (h | ⟨_, h | ⟨_, h⟩⟩)
          · omega
          · omega
          · exact absurd h (not_le.mpr hu)
    · rw [if_pos h2]
      constructor
      · intro h
        exact Or.inr ⟨h1, Or.inl (by omega)⟩
      · rintro (h | ⟨_, h | ⟨h', _⟩⟩)
        · omega
        · omega
        · exact absurd h' h2
  · rw [if_pos h1]
    constructor
    · intro h
      exact Or.inl (by omega)
    · rintro (h | ⟨h, _⟩)
      · omega
      · exact absurd h h1

theorem rankLE_total (a b : RankableBid) : rankLE a b || rankLE b a := by
  simp only [rankLE, Bool.or_eq_true, decide_eq_true_eq, compareRankableBids_neg a b]
  omega

theorem rankLE_trans (a b c : RankableBid)
    (hab : rankLE a b) (hbc : rankLE b c) : rankLE a c := by
  have h1 := (rankLE_iff a b).mp hab
  have h2 := (rankLE_iff b c).mp hbc
  rw [rankLE_iff]
  rcases h1 with h1 | ⟨e1, h1⟩
  · rcases h2 with h2 | ⟨e2, h2⟩
    · exact Or.inl (by omega)
    · exact Or.inl (by omega)
  · rcases h2 with h2 | ⟨e2, h2⟩
    · exact Or.inl (by omega)
    · refine Or.inr ⟨by omega, ?_⟩
      rcases h1 with t1 | ⟨t1, u1⟩
      · rcases h2 with t2 | ⟨t2, u2⟩
        · exact Or.inl (by omega)
        · exact Or.inl (by omega)
      · rcases h2 with t2 | ⟨t2, u2⟩
        · exact Or.inl (by omega)
        · exact Or.inr ⟨by omega, le_trans u1 u2⟩

theorem rankLE_amount_ge {a b : RankableBid} (h : rankLE a b = true) :
    b.amount ≤ a.amount := by
  have := (rankLE_iff a b).mp h
  rcases this with h | ⟨h, _⟩ <;> omega

theorem mergeSort_rankLE_sorted (bids : List RankableBid) :
    List.Pairwise (fun a b => rankLE a b = true) (bids.mergeSort rankLE) :=
  List.sorted_mergeSort rankLE_trans rankLE_total bids

/-- C3: `selectWinners(bids, n)` returns the first `min(n, |bids|)` bids under
the ranking order (the result is sorted by `rankLE`, and together with the
left-over bids is a permutation of the input, every kept bid ranking no
worse than every left-over one); the clearing price is the amount of the
last returned bid when the result is non-empty; for `n ≤ 0` it returns the
empty list and clearing price 0.  Determinism is immediate: `selectWinners`
is a pure function of its arguments. -/
theorem selectWinners_spec (bids : List RankableBid) (n : Int) :
    (0 < n → (selectWinners bids n).winners.length = min n.toNat bids.length) ∧
    List.Pairwise (fun a b => rankLE a b = true) (selectWinners bids n).winners ∧
    (∃ rest, ((selectWinners bids n).winners ++ rest).Perm bids ∧
      ∀ w ∈ (selectWinners bids n).winners, ∀ r ∈ rest, rankLE w r = true) ∧
    (∀ w, (selectWinners bids n).winners.getLast? = some w →
      (selectWinners bids n).clearingPrice = w.amount) ∧
    (n ≤ 0 → (selectWinners bids n).winners = [] ∧
      (selectWinners bids n).clearingPrice = 0) := by
  by_cases hn : n ≤ 0
  · refine ⟨fun h0 => absurd h0 (not_lt.mpr hn), ?_, ⟨bids, ?_, ?_⟩, ?_, fun _ => ?_⟩
    · simp [selectWinners, hn]
    · simp [selectWinners, hn]
    · simp [selectWinners, hn]
    · intro w hw
      simp [selectWinners, hn] at hw
    · simp [selectWinners, hn]
  · have hsorted := mergeSort_rankLE_sorted bids
    have hperm : (bids.mergeSort rankLE).Perm bids := List.mergeSort_perm bids rankLE
    refine ⟨?_, ?_, ?_, ?_, fun h => absurd h hn⟩
    · intro _
      simp [selectWinners, hn, List.length_take]
    · simp only [selectWinners, if_neg hn]
      exact hsorted.sublist (List.take_sublist _ _)
    · refine ⟨(bids.mergeSort rankLE).drop n.toNat, ?_, ?_⟩
      · simp only [selectWinners, if_neg hn]
        rw [List.take_append_drop]
        exact hperm
      · intro w hw r hr
        simp only [selectWinners, if_neg hn] at hw
        have hsplit := List.take_append_drop n.toNat (bids.mergeSort rankLE)
        rw [← hsplit] at hsorted
        exact (List.pairwise_append.mp hsorted).2.2 w hw r hr
    · intro w hw
      simp only [selectWinners, if_neg hn] at hw ⊢
      rw [hw]

theorem selectWinners_spec_statement_check :
    0 < (2 : Int) ∧
      (selectWinners
        [⟨"b", 100, 10⟩, ⟨"a", 100, 10⟩, ⟨"c", 100, 9⟩] 2).winners.length =
        min (2 : Int).toNat 3 :=
  ⟨by decide,
    (selectWinners_spec [⟨"b", 100, 10⟩, ⟨"a", 100, 10⟩, ⟨"c", 100, 9⟩] 2).1
      (by decide)⟩

/-! ### Data model (src/src/db/collections.ts)

Ledger and Round documents drop the ObjectId `_id` and the free-form `meta`
field: neither is ever consulted by the modelled logic.  Dates are integer
milliseconds. -/

structure Balance where
  available : Int
  reserved : Int
  spent : Int
deriving Repr, DecidableEq

structure UserDoc where
  id : UserId
  createdAt : Int
  balance : Balance
  totalTopups : Int
deriving Repr, DecidableEq

structure AuctionConfig where
  roundDurationMs : Int
  winnersPerRound : Int
  antiSnipeWindowMs : Int
  antiSnipeExtendMs : Int
  maxWinsPerUser : Int
  maxDurationMs : Int
  maxConsecutiveEmptyRounds : Int
deriving Repr, DecidableEq

inductive AuctionState
  | draft | running | ended | cancelled
deriving Repr, DecidableEq

inductive RoundState
  | open' | closing
deriving Repr, DecidableEq

inductive EndReason
  | soldOut | maxDuration | emptyRounds | cancelled
deriving Repr, DecidableEq

structure AuctionDoc where
  id : AuctionId
  createdAt : Int
  updatedAt : Int
  title : String
  state : AuctionState
  startedAt : Option Int := none
  endsAt : Option Int := none
  endedAt : Option Int := none
  endReason : Option EndReason := none
  totalQuantity : Int
  awardedCount : Int
  revenue : Int
  currentRound : Int
  consecutiveEmptyRounds : Int
  roundState : Option RoundState := none
  roundEndsAt : Option Int := none
  closingToken : Option String := none
  closingStartedAt : Option Int := none
  version : Int
  config : AuctionConfig
deriving Repr, DecidableEq

inductive BidStatus
  | active | won | lost | withdrawn
deriving Repr, DecidableEq

structure BidSettlement where
  wonRound : Int
  giftSerial : Int
  clearingPrice : Int
  paid : Int
  refunded : Int
  settledAt : Int
deriving Repr, DecidableEq

structure BidDoc where
  id : BidId
  auctionId : AuctionId
  userId : UserId
  amount : Int
  status : BidStatus
  createdAt : Int
  updatedAt : Int
  lastBidAt : Int
  settlement : Option BidSettlement := none
deriving Repr, DecidableEq

structure RoundWinner where
  userId : UserId
  amount : Int
  giftSerial : Int
  paid : Int
  refunded : Int
deriving Repr, DecidableEq

structure RoundDoc where
  auctionId : AuctionId
  roundNumber : Int
  endedAt : Int
  clearingPrice : Int
  winners : List RoundWinner
deriving Repr, DecidableEq

inductive LedgerType
  | topup | reserve | unreserve | spend | refund
deriving Repr, DecidableEq

structure LedgerDoc where
  createdAt : Int
  userId : UserId
  type : LedgerType
  amount : Int
  auctionId : Option AuctionId := none
deriving Repr, DecidableEq

/-- The five collections of the store (EngineLocks is out of scope of the
modelled operations: leader election only decides who calls the engine). -/
structure St where
  users : List UserDoc
  auctions : List AuctionDoc
  bids : List BidDoc
  rounds : List RoundDoc
  ledger : List LedgerDoc
deriving Repr, DecidableEq

/-- Domain error kinds (src/src/errors.ts) plus the duplicate-key failure a
unique index raises. -/
inductive Err
  | INVALID_INPUT | NOT_FOUND | NOT_OPEN | ROUND_ENDED | BID_NOT_ACTIVE
  | INSUFFICIENT_FUNDS | INVARIANT_VIOLATION | NOT_STARTABLE | NOT_CANCELLABLE
  | DUPLICATE_KEY
deriving Repr, DecidableEq

/-! ### Store primitives

`findOneAndUpdate p f l` models Mongo findOneAndUpdate with
returnDocument after: update the first document matching `p` and return it
with the updated collection; `none` models matchedCount = 0 (which every
caller treats as a failure of its predicate). -/

def findOneAndUpdate {α : Type} (p : α → Bool) (f : α → α) : List α → Option (α × List α)
  | [] => none
  | x :: xs =>
    if p x then some (f x, f x :: xs)
    else
      match findOneAndUpdate p f xs with
      | none => none
      | some (y, ys) => some (y, x :: ys)

def updateOne {α : Type} (p : α → Bool) (f : α → α) (l : List α) : Option (List α) :=
  (findOneAndUpdate p f l).map (fun r => r.2)

theorem findOneAndUpdate_eq_some {α : Type} {p : α → Bool} {f : α → α} :
    ∀ {l : List α} {y : α} {l' : List α}, findOneAndUpdate p f l = some (y, l') →
      ∃ l₁ x l₂, l = l₁ ++ x :: l₂ ∧ p x = true ∧ (∀ z ∈ l₁, p z = false) ∧
        y = f x ∧ l' = l₁ ++ f x :: l₂
  | [], _, _, h => by simp [findOneAndUpdate] at h
  | x :: xs, y, l', h => by
    by_cases hx : p x
    · refine ⟨[], x, xs, rfl, hx, by simp, ?_, ?_⟩ <;>
        · simp [findOneAndUpdate, hx] at h
          simp [h.1.symm, h.2.symm]
    · simp only [findOneAndUpdate, if_neg hx] at h
      match hrec : findOneAndUpdate p f xs with
      | none => rw [hrec] at h; exact absurd h (by simp)
      | some (y₀, ys) =>
        rw [hrec] at h
        simp only [Option.some.injEq, Prod.mk.injEq] at h
        obtain ⟨l₁, z, l₂, hxs, hz, hl₁, hy, hys⟩ := findOneAndUpdate_eq_some hrec
        refine ⟨x :: l₁, z, l₂, by simp [hxs], hz, ?_, by simp [hy, h.1.symm], ?_⟩
        · intro w hw
          rcases List.mem_cons.mp hw with hw | hw
          · simpa [hw] using (by simpa using hx)
          · exact hl₁ w hw
        · simp [← h.2, hys]

theorem findOneAndUpdate_eq_none {α : Type} {p : α → Bool} {f : α → α} :
    ∀ {l : List α}, findOneAndUpdate p f l = none ↔ ∀ x ∈ l, p x = false
  | [] => by simp [findOneAndUpdate]
  | x :: xs => by
    by_cases hx : p x
    · simp [findOneAndUpdate, hx]
    · simp only [findOneAndUpdate, if_neg hx]
      match hrec : findOneAndUpdate p f xs with
      | none =>
        simp only [hrec]
        have := (findOneAndUpdate_eq_none (l := xs)).mp hrec
        simp_all
      | some (y₀, ys) =>
        simp only [hrec]
        constructor
        · intro h
          exact absurd h (by simp)
        · intro h
          have := (findOneAndUpdate_eq_none (l := xs) (p := p) (f := f)).mpr
            (fun z hz => h z (by simp [hz]))
          rw [this] at hrec
          exact absurd hrec (by simp)

theorem updateOne_eq_some {α : Type} {p : α → Bool} {f : α → α}
    {l l' : List α} (h : updateOne p f l = some l') :
    ∃ l₁ x l₂, l = l₁ ++ x :: l₂ ∧ p x = true ∧ (∀ z ∈ l₁, p z = false) ∧
      l' = l₁ ++ f x :: l₂ := by
  unfold updateOne at h
  match hfu : findOneAndUpdate p f l with
  | none => rw [hfu] at h; exact absurd h (by simp)
  | some (y, ys) =>
    rw [hfu] at h
    obtain ⟨l₁, x, l₂, h1, h2, h3, _, h5⟩ := findOneAndUpdate_eq_some hfu
    exact ⟨l₁, x, l₂, h1, h2, h3, by simpa [← h5] using h.symm⟩

/-- An in-place predicated update keeps a per-document property when the
update function preserves it on matched documents. -/
theorem updateOne_forall {α : Type} {p : α → Bool} {f : α → α} {P : α → Prop}
    (hf : ∀ x, p x = true → P x → P (f x))
    {l l' : List α} (h : updateOne p f l = some l')
    (hP : ∀ x ∈ l, P x) : ∀ x ∈ l', P x := by
  obtain ⟨l₁, x, l₂, h1, h2, _, h4⟩ := updateOne_eq_some h
  subst h1 h4
  intro z hz
  rcases List.mem_append.mp hz with hz | hz
  · exact hP z (by simp [hz])
  · rcases List.mem_cons.mp hz with hz | hz
    · exact hz ▸ hf x h2 (hP x (by simp))
    · exact hP z (by simp [hz])

theorem find?_middle_congr {α : Type} (q : α → Bool) (l₁ : List α) (x y : α)
    (l₂ : List α) (hx : q x = false) (hy : q y = false) :
    (l₁ ++ x :: l₂).find? q = (l₁ ++ y :: l₂).find? q := by
  induction l₁ with
  | nil => simp [List.find?, hx, hy]
  | cons a as ih => by_cases ha : q a <;> simp [List.find?, ha, ih]

/-- Updating documents that a query predicate rejects (both before and after
the update) does not change what that query finds. -/
theorem updateOne_find?_frame {α : Type} {p q : α → Bool} {f : α → α}
    {l l' : List α} (h : updateOne p f l = some l')
    (hq : ∀ x, p x = true → q x = false ∧ q (f x) = false) :
    l'.find? q = l.find? q := by
  obtain ⟨l₁, x, l₂, h1, h2, _, h4⟩ := updateOne_eq_some h
  subst h1 h4
  exact find?_middle_congr q l₁ (f x) x l₂ (hq x h2).2 (hq x h2).1

/-! ### The Mongo index order on bids

The engine and the snapshot read active bids with the index sort
{amount: -1, lastBidAt: 1, userId: 1}; on bid documents this is the same
total preorder as `compareRankableBids` (ObjectIds compare by their hex
encoding, and the unique (auctionId, userId) index makes the key triple
unique per auction, so the sort is deterministic). -/

def bidRankLE (a b : BidDoc) : Bool :=
  if a.amount ≠ b.amount then decide (b.amount < a.amount)
  else if a.lastBidAt ≠ b.lastBidAt then decide (a.lastBidAt < b.lastBidAt)
  else decide (a.userId ≤ b.userId)

theorem bidRankLE_iff (a b : BidDoc) :
    bidRankLE a b = true ↔
      b.amount < a.amount ∨
        (a.amount = b.amount ∧
          (a.lastBidAt < b.lastBidAt ∨
            (a.lastBidAt = b.lastBidAt ∧ a.userId ≤ b.userId))) := by
  unfold bidRankLE
  by_cases h1 : a.amount = b.amount
  · rw [if_neg (by simp [h1])]
    by_cases h2 : a.lastBidAt = b.lastBidAt
    · rw [if_neg (by simp [h2])]
      simp [h1, h2]
    · rw [if_pos h2]
      simp only [decide_eq_true_eq]
      constructor
      · intro h
        exact Or.inr ⟨h1, Or.inl h⟩
      · rintro (h | ⟨_, h | ⟨h', _⟩⟩)
        · omega
        · exact h
        · exact absurd h' h2
  · rw [if_pos h1]
    simp only [decide_eq_true_eq]
    constructor
    · intro h
      exact Or.inl h
    · rintro (h | ⟨h, _⟩)
      · exact h
      · exact absurd h h1

theorem bidRankLE_total (a b : BidDoc) : bidRankLE a b || bidRankLE b a := by
  simp only [Bool.or_eq_true, bidRankLE_iff]
  rcases lt_trichotomy a.amount b.amount with h | h | h
  · exact Or.inr (Or.inl h)
  · rcases lt_trichotomy a.lastBidAt b.lastBidAt with h2 | h2 | h2
    · exact Or.inl (Or.inr ⟨h, Or.inl h2⟩)
    · rcases le_total a.userId b.userId with h3 | h3
      · exact Or.inl (Or.inr ⟨h, Or.inr ⟨h2, h3⟩⟩)
      · exact Or.inr (Or.inr ⟨h.symm, Or.inr ⟨h2.symm, h3⟩⟩)
    · exact Or.inr (Or.inr ⟨h.symm, Or.inl h2⟩)
  · exact Or.inl (Or.inl h)

theorem bidRankLE_trans (a b c : BidDoc)
    (hab : bidRankLE a b) (hbc : bidRankLE b c) : bidRankLE a c := by
  have h1 := (bidRankLE_iff a b).mp hab
  have h2 := (bidRankLE_iff b c).mp hbc
  rw [bidRankLE_iff]
  rcases h1 with h1 | ⟨e1, h1⟩
  · rcases h2 with h2 | ⟨e2, h2⟩
    · exact Or.inl (by omega)
    · exact Or.inl (by omega)
  · rcases h2 with h2 | ⟨e2, h2⟩
    · exact Or.inl (by omega)
    · refine Or.inr ⟨by omega, ?_⟩
      rcases h1 with t1 | ⟨t1, u1⟩
      · rcases h2 with t2 | ⟨t2, u2⟩
        · exact Or.inl (by omega)
        · exact Or.inl (by omega)
      · rcases h2 with t2 | ⟨t2, u2⟩
        · exact Or.inl (by omega)
        · exact Or.inr ⟨by omega, le_trans u1 u2⟩

theorem bidRankLE_amount_ge {a b : BidDoc} (h : bidRankLE a b = true) :
    b.amount ≤ a.amount := by
  have := (bidRankLE_iff a b).mp h
  rcases this with h | ⟨h, _⟩ <;> omega

theorem mergeSort_bidRankLE_sorted (bids : List BidDoc) :
    List.Pairwise (fun a b => bidRankLE a b = true) (bids.mergeSort bidRankLE) :=
  List.sorted_mergeSort bidRankLE_trans bidRankLE_total bids

/-- Active bids of one auction in index order, as read by the engine and the
snapshot. -/
def sortedActiveBids (s : St) (auctionId : AuctionId) : List BidDoc :=
  (s.bids.filter
    (fun b => b.auctionId == auctionId && b.status == BidStatus.active)).mergeSort bidRankLE

/-! ### Users service (src/src/services/users.ts) -/

/-- `createUser`: insert a fresh user document with zero balances. -/
def createUser (s : St) (freshId : UserId) (now : Int) : St × UserDoc :=
  let doc : UserDoc := ⟨freshId, now, ⟨0, 0, 0⟩, 0⟩
  ({ s with users := s.users ++ [doc] }, doc)

/-- `topupUser`: validate the amount, increment `balance.available` and
`totalTopups` on the user document, append a `topup` ledger entry.  A thrown
error carries the store state at the throw point (which the transactional
wrapper rolls back). -/
def topupUser (s : St) (userId : UserId) (amount : Int) (now : Int) :
    Except (Err × St) (St × UserDoc) :=
  if amount ≤ 0 then .error (.INVALID_INPUT, s)
  else
    match findOneAndUpdate (fun u => u.id == userId)
        (fun u =>
          { u with
            balance := { u.balance with
              available := u.balance.available + amount },
            totalTopups := u.totalTopups + amount }) s.users with
    | none => .error (.NOT_FOUND, s)
    | some (user, users') =>
      let s1 : St := { s with users := users' }
      .ok ({ s1 with ledger := s1.ledger ++ [⟨now, userId, .topup, amount, none⟩] }, user)

/-! ### Auctions service (src/src/services/auctions.ts) -/

/-- `clampInt` from auctions.ts (the float-only isFinite / trunc steps are
identities on integers). -/
def clampInt (v minV maxV : Int) : Int :=
  if v < minV then minV else if maxV < v then maxV else v

/-- `CreateAuctionInput` with the optional config fields flattened. -/
structure CreateAuctionInput where
  title : String
  totalQuantity : Int
  roundDurationMs : Option Int := none
  winnersPerRound : Option Int := none
  antiSnipeWindowMs : Option Int := none
  antiSnipeExtendMs : Option Int := none
  maxWinsPerUser : Option Int := none
  maxDurationMs : Option Int := none
  maxConsecutiveEmptyRounds : Option Int := none
deriving Repr, DecidableEq

def createAuction (s : St) (input : CreateAuctionInput) (freshId : AuctionId) (now : Int) :
    Except (Err × St) (St × AuctionDoc) :=
  if input.title.trim = "" then .error (.INVALID_INPUT, s)
  else if input.totalQuantity ≤ 0 then .error (.INVALID_INPUT, s)
  else
    let cfg : AuctionConfig :=
      { roundDurationMs := clampInt (input.roundDurationMs.getD 60000) 5000 3600000
        winnersPerRound := clampInt (input.winnersPerRound.getD 10) 1 input.totalQuantity
        antiSnipeWindowMs := clampInt (input.antiSnipeWindowMs.getD 10000) 0 60000
        antiSnipeExtendMs := clampInt (input.antiSnipeExtendMs.getD 10000) 0 60000
        maxWinsPerUser := clampInt (input.maxWinsPerUser.getD 1) 1 1
        maxDurationMs := clampInt (input.maxDurationMs.getD 0) 0 604800000
        maxConsecutiveEmptyRounds := clampInt (input.maxConsecutiveEmptyRounds.getD 3) 0 10000 }
    let doc : AuctionDoc :=
      { id := freshId, createdAt := now, updatedAt := now, title := input.title,
        state := .draft, totalQuantity := input.totalQuantity, awardedCount := 0,
        revenue := 0, currentRound := 0, consecutiveEmptyRounds := 0, version := 0,
        config := cfg }
    .ok ({ s with auctions := s.auctions ++ [doc] }, doc)

def startAuction (s : St) (auctionId : AuctionId) (now : Int) :
    Except (Err × St) (St × AuctionDoc) :=
  match s.auctions.find? (fun a => a.id == auctionId) with
  | none => .error (.NOT_FOUND, s)
  | some existing =>
    if existing.state ≠ .draft then .error (.NOT_STARTABLE, s)
    else
      let endsAt := now + existing.config.roundDurationMs
      let auctionEndsAt : Option Int :=
        if 0 < existing.config.maxDurationMs then some (now + existing.config.maxDurationMs)
        else none
      let roundEndsAt :=
        match auctionEndsAt with
        | some ae => if ae < endsAt then ae else endsAt
        | none => endsAt
      match findOneAndUpdate (fun a => a.id == auctionId && a.state == AuctionState.draft)
          (fun a =>
            { a with
              state := .running, startedAt := some now, endsAt := auctionEndsAt,
              currentRound := 1, roundState := some .open', roundEndsAt := some roundEndsAt,
              consecutiveEmptyRounds := 0, updatedAt := now,
              endedAt := none, endReason := none, version := a.version + 1 }) s.auctions with
      | none => .error (.NOT_STARTABLE, s)
      | some (auction, auctions') => .ok ({ s with auctions := auctions' }, auction)

/-- The per-bid loop inside `cancelAuction`: flip each active bid to
withdrawn and move its amount from reserved back to available (predicated
on sufficient reserved), appending an unreserve ledger entry. -/
def cancelRefundLoop (now : Int) (auctionId : AuctionId) :
    St → List BidDoc → Except (Err × St) St
  | s, [] => .ok s
  | s, b :: rest =>
    match updateOne (fun x => x.id == b.id && x.status == BidStatus.active)
        (fun x => { x with status := .withdrawn, updatedAt := now }) s.bids with
    | none => .error (.INVARIANT_VIOLATION, s)
    | some bids' =>
      let s1 : St := { s with bids := bids' }
      match updateOne (fun u => u.id == b.userId && decide (b.amount ≤ u.balance.reserved))
          (fun u =>
            { u with balance :=
              { u.balance with
                reserved := u.balance.reserved - b.amount,
                available := u.balance.available + b.amount } }) s1.users with
      | none => .error (.INVARIANT_VIOLATION, s1)
      | some users' =>
        let s2 : St := { s1 with users := users' }
        cancelRefundLoop now auctionId
          { s2 with
            ledger := s2.ledger ++ [⟨now, b.userId, .unreserve, b.amount, some auctionId⟩] }
          rest

def cancelAuction (s : St) (auctionId : AuctionId) (now : Int) :
    Except (Err × St) (St × AuctionDoc) :=
  match findOneAndUpdate
      (fun a => a.id == auctionId &&
        (a.state == AuctionState.draft || a.state == AuctionState.running))
      (fun a =>
        { a with
          state := .cancelled, endedAt := some now, endReason := some .cancelled,
          updatedAt := now, roundState := none, roundEndsAt := none,
          closingToken := none, closingStartedAt := none,
          version := a.version + 1 }) s.auctions with
  | none => .error (.NOT_CANCELLABLE, s)
  | some (auction, auctions') =>
    let s1 : St := { s with auctions := auctions' }
    let activeBids :=
      s1.bids.filter (fun b => b.auctionId == auctionId && b.status == BidStatus.active)
    match cancelRefundLoop now auctionId s1 activeBids with
    | .error e => .error e
    | .ok s2 => .ok (s2, auction)

/-- `placeBid`.  The Mongo `$max` merge on `roundEndsAt` is modelled as
taking the maximum with the stored value (`getD` covers the set-if-missing
semantics of `$max`). -/
def placeBid (s : St) (auctionId : AuctionId) (userId : UserId) (newAmount : Int)
    (now : Int) (freshBidId : BidId) :
    Except (Err × St) (St × AuctionDoc × BidDoc) :=
  if newAmount ≤ 0 then .error (.INVALID_INPUT, s)
  else
    match s.auctions.find? (fun a => a.id == auctionId) with
    | none => .error (.NOT_FOUND, s)
    | some auction =>
      if auction.state ≠ .running ∨ auction.roundState ≠ some .open' then
        .error (.NOT_OPEN, s)
      else
        match auction.roundEndsAt with
        | none => .error (.NOT_OPEN, s)
        | some roundEndsAt =>
          if roundEndsAt ≤ now then .error (.ROUND_ENDED, s)
          else
            let existing :=
              s.bids.find? (fun b => b.auctionId == auctionId && b.userId == userId)
            let notActiveNotWithdrawn : Bool :=
              match existing with
              | some b => !(b.status == BidStatus.active) && !(b.status == BidStatus.withdrawn)
              | none => false
            if notActiveNotWithdrawn then .error (.BID_NOT_ACTIVE, s)
            else
              let oldAmount : Int :=
                match existing with
                | some b => if b.status == BidStatus.active then b.amount else 0
                | none => 0
              if newAmount ≤ oldAmount then .error (.INVALID_INPUT, s)
              else
                let delta := newAmount - oldAmount
                match updateOne
                    (fun u => u.id == userId && decide (delta ≤ u.balance.available))
                    (fun u =>
                      { u with balance :=
                        { u.balance with
                          available := u.balance.available - delta,
                          reserved := u.balance.reserved + delta } }) s.users with
                | none => .error (.INSUFFICIENT_FUNDS, s)
                | some users' =>
                  let s1 : St := { s with users := users' }
                  let bidStep : Except (Err × St) (St × BidDoc) :=
                    match existing with
                    | some b =>
                      if b.status == BidStatus.active then
                        match findOneAndUpdate
                            (fun x => x.id == b.id && x.status == BidStatus.active)
                            (fun x =>
                              { x with
                                amount := newAmount, lastBidAt := now,
                                updatedAt := now }) s1.bids with
                        | none => .error (.INVARIANT_VIOLATION, s1)
                        | some (bid, bids') => .ok ({ s1 with bids := bids' }, bid)
                      else
                        match findOneAndUpdate
                            (fun x => x.id == b.id && x.status == BidStatus.withdrawn)
                            (fun x =>
                              { x with
                                status := .active, amount := newAmount,
                                lastBidAt := now, updatedAt := now }) s1.bids with
                        | none => .error (.INVARIANT_VIOLATION, s1)
                        | some (bid, bids') => .ok ({ s1 with bids := bids' }, bid)
                    | none =>
                      let bid : BidDoc :=
                        ⟨freshBidId, auctionId, userId, newAmount, .active, now, now, now, none⟩
                      .ok ({ s1 with bids := s1.bids ++ [bid] }, bid)
                  match bidStep with
                  | .error e => .error e
                  | .ok (s2, bid) =>
                    let s3 : St :=
                      { s2 with
                        ledger := s2.ledger ++ [⟨now, userId, .reserve, delta, some auctionId⟩] }
                    let clamped : Int :=
                      match auction.endsAt with
                      | some e => if e < roundEndsAt then e else roundEndsAt
                      | none => roundEndsAt
                    let remainingMs := roundEndsAt - now
                    let newEndsAt : Int :=
                      if remainingMs ≤ auction.config.antiSnipeWindowMs then
                        let candidate0 := now + auction.config.antiSnipeExtendMs
                        let candidate :=
                          match auction.endsAt with
                          | some e => if e < candidate0 then e else candidate0
                          | none => candidate0
                        if clamped < candidate then candidate else clamped
                      else clamped
                    match findOneAndUpdate
                        (fun a => a.id == auctionId && a.state == AuctionState.running &&
                          a.roundState == some RoundState.open')
                        (fun a =>
                          { a with
                            updatedAt := now,
                            roundEndsAt := some (max (a.roundEndsAt.getD newEndsAt) newEndsAt),
                            version := a.version + 1 }) s3.auctions with
                    | none => .error (.NOT_OPEN, s3)
                    | some (updatedAuction, auctions') =>
                      .ok ({ s3 with auctions := auctions' }, updatedAuction, bid)

def withdrawBid (s : St) (auctionId : AuctionId) (userId : UserId) (now : Int) :
    Except (Err × St) (St × BidDoc) :=
  match s.auctions.find? (fun a => a.id == auctionId) with
  | none => .error (.NOT_FOUND, s)
  | some auction =>
    if auction.state ≠ .running ∨ auction.roundState ≠ some .open' then
      .error (.NOT_OPEN, s)
    else
      match auction.roundEndsAt with
      | none => .error (.NOT_OPEN, s)
      | some roundEndsAt =>
        if roundEndsAt ≤ now then .error (.ROUND_ENDED, s)
        else
          match s.bids.find?
              (fun b => b.auctionId == auctionId && b.userId == userId &&
                b.status == BidStatus.active) with
          | none => .error (.BID_NOT_ACTIVE, s)
          | some bid =>
            match updateOne (fun x => x.id == bid.id && x.status == BidStatus.active)
                (fun x => { x with status := .withdrawn, updatedAt := now }) s.bids with
            | none => .error (.BID_NOT_ACTIVE, s)
            | some bids' =>
              let s1 : St := { s with bids := bids' }
              match updateOne
                  (fun u => u.id == userId && decide (bid.amount ≤ u.balance.reserved))
                  (fun u =>
                    { u with balance :=
                      { u.balance with
                        reserved := u.balance.reserved - bid.amount,
                        available := u.balance.available + bid.amount } }) s1.users with
              | none => .error (.INVARIANT_VIOLATION, s1)
              | some users' =>
                let s2 : St := { s1 with users := users' }
                let s3 : St :=
                  { s2 with
                    ledger := s2.ledger ++ [⟨now, userId, .unreserve, bid.amount, some auctionId⟩] }
                match updateOne (fun a => a.id == auctionId)
                    (fun a => { a with updatedAt := now, version := a.version + 1 })
                    s3.auctions with
                | none => .error (.NOT_FOUND, s3)
                | some auctions' =>
                  .ok ({ s3 with
                    auctions := auctions' },
                    { bid with status := .withdrawn, updatedAt := now })

/-! ### Round engine (src/src/services/auctionEngine.ts) -/

/-- One element of the `winners` array computed by `settleClosingAuction`. -/
structure SettleWinner where
  bidId : BidId
  userId : UserId
  amount : Int
  giftSerial : Int
  paid : Int
  refunded : Int
deriving Repr, DecidableEq

/-- The query that re-reads the closing auction inside the settlement
transaction, fenced on the closing token. -/
def settlePred (auctionId : AuctionId) (closingToken : String) (a : AuctionDoc) : Bool :=
  a.id == auctionId && a.state == AuctionState.running &&
    a.roundState == some RoundState.closing && a.closingToken == some closingToken

/-- The top `winnersCount` active bids of the auction in index order
(empty when `winnersCount` is not positive). -/
def winnerBidsOf (s : St) (auctionId : AuctionId) (winnersCount : Int) : List BidDoc :=
  if 0 < winnersCount then (sortedActiveBids s auctionId).take winnersCount.toNat else []

def clearingPriceOf (winnerBids : List BidDoc) : Int :=
  match winnerBids.getLast? with
  | none => 0
  | some b => b.amount

/-- Winner records with gift serials: the i-th winner (0-based) gets serial
`awardedCount + i + 1`, pays the clearing price and is refunded
`amount - clearingPrice`. -/
def settleWinners (winnerBids : List BidDoc) (awardedCount clearingPrice : Int) :
    List SettleWinner :=
  winnerBids.enum.map (fun p =>
    ⟨p.2.id, p.2.userId, p.2.amount, awardedCount + (p.1 : Int) + 1, clearingPrice,
      p.2.amount - clearingPrice⟩)

/-- The per-winner settlement loop: CAS the bid from active to won with its
settlement payload, apply the predicated balance update
(`reserved -= amount`, `spent += paid`, `available += refunded`, requiring
`reserved ≥ amount`), and append the spend (and, when positive, refund)
ledger entries. -/
def settleWinnersLoop (now currentRound clearingPrice : Int) (auctionId : AuctionId) :
    St → List SettleWinner → Except (Err × St) St
  | s, [] => .ok s
  | s, w :: rest =>
    match updateOne (fun b => b.id == w.bidId && b.status == BidStatus.active)
        (fun b =>
          { b with
            status := .won, updatedAt := now,
            settlement := some ⟨currentRound, w.giftSerial, clearingPrice, w.paid,
              w.refunded, now⟩ }) s.bids with
    | none => .error (.INVARIANT_VIOLATION, s)
    | some bids' =>
      let s1 : St := { s with bids := bids' }
      match updateOne (fun u => u.id == w.userId && decide (w.amount ≤ u.balance.reserved))
          (fun u =>
            { u with
              balance :=
                ⟨u.balance.available + w.refunded, u.balance.reserved - w.amount,
                  u.balance.spent + w.paid⟩ }) s1.users with
      | none => .error (.INVARIANT_VIOLATION, s1)
      | some users' =>
        let s2 : St := { s1 with users := users' }
        let entries : List LedgerDoc :=
          ⟨now, w.userId, .spend, w.paid, some auctionId⟩ ::
            (if 0 < w.refunded then [⟨now, w.userId, .refund, w.refunded, some auctionId⟩]
             else [])
        settleWinnersLoop now currentRound clearingPrice auctionId
          { s2 with ledger := s2.ledger ++ entries } rest

/-- The end-of-auction loop refunding every remaining active bid: flip the
bid to lost and return its amount from reserved to available, appending an
unreserve ledger entry. -/
def endRefundLoop (now : Int) (auctionId : AuctionId) :
    St → List BidDoc → Except (Err × St) St
  | s, [] => .ok s
  | s, b :: rest =>
    match updateOne (fun x => x.id == b.id && x.status == BidStatus.active)
        (fun x => { x with status := .lost, updatedAt := now }) s.bids with
    | none => .error (.INVARIANT_VIOLATION, s)
    | some bids' =>
      let s1 : St := { s with bids := bids' }
      match updateOne (fun u => u.id == b.userId && decide (b.amount ≤ u.balance.reserved))
          (fun u =>
            { u with
              balance :=
                { u.balance with
                  reserved := u.balance.reserved - b.amount,
                  available := u.balance.available + b.amount } }) s1.users with
      | none => .error (.INVARIANT_VIOLATION, s1)
      | some users' =>
        let s2 : St := { s1 with users := users' }
        endRefundLoop now auctionId
          { s2 with
            ledger := s2.ledger ++ [⟨now, b.userId, .unreserve, b.amount, some auctionId⟩] }
          rest

/-- The settlement transaction body.  The Round insert with its unique
(auctionId, roundNumber) index comes first; a duplicate key there raises
DUPLICATE_KEY, which the caller treats as already settled. -/
def settleClosingAuctionBody (s : St) (auctionId : AuctionId) (closingToken : String)
    (now : Int) : Except (Err × St) St :=
  match s.auctions.find? (settlePred auctionId closingToken) with
  | none => .ok s
  | some auction =>
    let remainingQty := max 0 (auction.totalQuantity - auction.awardedCount)
    let winnersCount := min auction.config.winnersPerRound remainingQty
    let winnerBids := winnerBidsOf s auctionId winnersCount
    let clearingPrice := clearingPriceOf winnerBids
    let winners := settleWinners winnerBids auction.awardedCount clearingPrice
    if s.rounds.any (fun r => r.auctionId == auctionId && r.roundNumber == auction.currentRound)
    then .error (.DUPLICATE_KEY, s)
    else
      let round : RoundDoc :=
        ⟨auctionId, auction.currentRound, now, clearingPrice,
          winners.map (fun w => ⟨w.userId, w.amount, w.giftSerial, w.paid, w.refunded⟩)⟩
      let s1 : St := { s with rounds := s.rounds ++ [round] }
      match settleWinnersLoop now auction.currentRound clearingPrice auctionId s1 winners with
      | .error e => .error e
      | .ok s2 =>
        let newAwardedCount := auction.awardedCount + (winners.length : Int)
        let soldOut : Bool := decide (auction.totalQuantity ≤ newAwardedCount)
        let forcedByDuration : Bool :=
          match auction.endsAt with
          | some e => decide (e ≤ now)
          | none => false
        let emptyRound : Bool := decide (0 < remainingQty) && winnerBids.isEmpty
        let newConsecutiveEmptyRounds : Int :=
          if emptyRound then auction.consecutiveEmptyRounds + 1 else 0
        let forcedByEmptyRounds : Bool :=
          emptyRound && decide (0 < auction.config.maxConsecutiveEmptyRounds) &&
            decide (auction.config.maxConsecutiveEmptyRounds ≤ newConsecutiveEmptyRounds)
        let shouldEnd := soldOut || forcedByDuration || forcedByEmptyRounds
        let endReason : EndReason :=
          if soldOut then .soldOut else if forcedByDuration then .maxDuration else .emptyRounds
        if shouldEnd then
          match endRefundLoop now auctionId s2
              (s2.bids.filter
                (fun b => b.auctionId == auctionId && b.status == BidStatus.active)) with
          | .error e => .error e
          | .ok s3 =>
            match updateOne
                (fun a => a.id == auctionId && a.state == AuctionState.running &&
                  a.closingToken == some closingToken)
                (fun a =>
                  { a with
                    state := .ended, endedAt := some now, endReason := some endReason,
                    awardedCount := newAwardedCount,
                    consecutiveEmptyRounds := newConsecutiveEmptyRounds,
                    revenue := auction.revenue + clearingPrice * (winners.length : Int),
                    updatedAt := now, roundState := none, roundEndsAt := none,
                    closingToken := none, closingStartedAt := none,
                    version := a.version + 1 }) s3.auctions with
            | none => .error (.INVARIANT_VIOLATION, s3)
            | some auctions' => .ok { s3 with auctions := auctions' }
        else
          let nextEndsAt : Int :=
            match auction.endsAt with
            | some e =>
              if e < now + auction.config.roundDurationMs then e
              else now + auction.config.roundDurationMs
            | none => now + auction.config.roundDurationMs
          match updateOne
              (fun a => a.id == auctionId && a.state == AuctionState.running &&
                a.closingToken == some closingToken)
              (fun a =>
                { a with
                  awardedCount := newAwardedCount,
                  revenue := auction.revenue + clearingPrice * (winners.length : Int),
                  currentRound := auction.currentRound + 1,
                  consecutiveEmptyRounds := newConsecutiveEmptyRounds,
                  roundState := some .open', roundEndsAt := some nextEndsAt,
                  updatedAt := now, closingToken := none, closingStartedAt := none,
                  version := a.version + 1 }) s2.auctions with
          | none => .error (.INVARIANT_VIOLATION, s2)
          | some auctions' => .ok { s2 with auctions := auctions' }

/-- `settleClosingAuction` as observed by callers: the transaction commits on
success; any thrown error (the duplicate-round key, which is swallowed as
already settled, as well as invariant violations, which are only logged)
aborts the transaction and leaves the store unchanged. -/
def settleClosingAuction (s : St) (auctionId : AuctionId) (closingToken : String)
    (now : Int) : St :=
  match settleClosingAuctionBody s auctionId closingToken now with
  | .ok s' => s'
  | .error _ => s

/-! ### Snapshot (getAuctionSnapshot in src/src/services/auctions.ts) -/

structure LeaderboardEntry where
  userId : UserId
  amount : Int
  lastBidAt : Int
deriving Repr, DecidableEq

structure MyBidView where
  status : BidStatus
  amount : Int
  lastBidAt : Int
deriving Repr, DecidableEq

structure RoundWinnerView where
  userId : UserId
  amount : Int
  giftSerial : Int
deriving Repr, DecidableEq

structure RoundView where
  roundNumber : Int
  clearingPrice : Int
  endedAt : Int
  winners : List RoundWinnerView
deriving Repr, DecidableEq

structure Snapshot where
  now : Int
  auction : AuctionDoc
  timeRemainingMs : Option Int
  remainingQuantity : Int
  leaderboard : List LeaderboardEntry
  myBid : Option MyBidView
  estimatedClearingPrice : Option Int
  recentRounds : List RoundView
deriving Repr, DecidableEq

/-- `k` of the snapshot: min(remainingQuantity, winnersPerRound) while
running, 0 otherwise. -/
def snapshotK (auction : AuctionDoc) : Int :=
  if auction.state = .running then
    min (max 0 (auction.totalQuantity - auction.awardedCount)) auction.config.winnersPerRound
  else 0

/-- The active bids the snapshot reads: index order, limited by
max(20, min(200, k)). -/
def snapshotActiveBids (s : St) (auctionId : AuctionId) (auction : AuctionDoc) :
    List BidDoc :=
  (sortedActiveBids s auctionId).take (max 20 (min 200 (snapshotK auction))).toNat

/-- estimatedClearingPrice: the k-th active bid amount when at least k
active bids exist and k is positive, else null. -/
def snapshotEstimatedClearingPrice (s : St) (auctionId : AuctionId)
    (auction : AuctionDoc) : Option Int :=
  let k := snapshotK auction
  let activeBids := snapshotActiveBids s auctionId auction
  if 0 < k ∧ k ≤ (activeBids.length : Int) then
    (activeBids.get? (k - 1).toNat).map (fun b => b.amount)
  else none

/-- Sort used for recentRounds: roundNumber descending. -/
def roundNumberDesc (a b : RoundDoc) : Bool := decide (b.roundNumber ≤ a.roundNumber)

def getAuctionSnapshot (s : St) (auctionId : AuctionId) (optUserId : Option UserId)
    (now : Int) : Except (Err × St) Snapshot :=
  match s.auctions.find? (fun a => a.id == auctionId) with
  | none => .error (.NOT_FOUND, s)
  | some auction =>
    let timeRemainingMs : Option Int :=
      if auction.state = .running ∧ auction.roundState = some .open' then
        match auction.roundEndsAt with
        | some e => some (max 0 (e - now))
        | none => none
      else none
    let remainingQuantity := max 0 (auction.totalQuantity - auction.awardedCount)
    let activeBids := snapshotActiveBids s auctionId auction
    let leaderboard : List LeaderboardEntry :=
      (activeBids.take 20).map (fun (b : BidDoc) => ⟨b.userId, b.amount, b.lastBidAt⟩)
    let myBidDoc : Option BidDoc :=
      match optUserId with
      | some uid =>
        s.bids.find? (fun (b : BidDoc) => b.auctionId == auctionId && b.userId == uid)
      | none => none
    let myBid := myBidDoc.map (fun (b : BidDoc) => (⟨b.status, b.amount, b.lastBidAt⟩ : MyBidView))
    let recentRounds : List RoundView :=
      ((((s.rounds.filter (fun r => r.auctionId == auctionId)).mergeSort
          roundNumberDesc).take 5).map
        (fun r =>
          (⟨r.roundNumber, r.clearingPrice, r.endedAt,
            r.winners.map (fun w => ⟨w.userId, w.amount, w.giftSerial⟩)⟩ : RoundView))).reverse
    .ok ⟨now, auction, timeRemainingMs, remainingQuantity, leaderboard, myBid,
      snapshotEstimatedClearingPrice s auctionId auction, recentRounds⟩

/-- C10: `getAuctionSnapshot` returns `estimatedClearingPrice = null`
whenever `k = min(remainingQuantity, winnersPerRound)` is 0 — in
particular whenever the auction is not running or `remainingQuantity` is 0
— regardless of how many active bids exist. -/
theorem getAuctionSnapshot_estimated_none (s : St) (auctionId : AuctionId)
    (optUserId : Option UserId) (now : Int) (snap : Snapshot)
    (hok : getAuctionSnapshot s auctionId optUserId now = .ok snap)
    (hcond : snap.auction.state ≠ .running ∨
      snap.auction.totalQuantity ≤ snap.auction.awardedCount) :
    snap.estimatedClearingPrice = none := by
  unfold getAuctionSnapshot at hok
  match hfind : s.auctions.find? (fun a => a.id == auctionId) with
  | none =>
    rw [hfind] at hok
    exact absurd hok (by simp)
  | some auction =>
    rw [hfind] at hok
    simp only [Except.ok.injEq] at hok
    subst hok
    simp only at hcond ⊢
    unfold snapshotEstimatedClearingPrice
    rw [if_neg]
    rintro ⟨hk, _⟩
    unfold snapshotK at hk
    rcases hcond with hc | hc
    · rw [if_neg hc] at hk
      exact absurd hk (by norm_num)
    · by_cases hr : auction.state = AuctionState.running
      · rw [if_pos hr] at hk
        omega
      · rw [if_neg hr] at hk
        exact absurd hk (by norm_num)

def demoStC10 : St :=
  ⟨[], [⟨"a1", 0, 0, "t", .draft, none, none, none, none, 3, 0, 0, 0, 0,
    none, none, none, none, 0, ⟨60000, 2, 10000, 10000, 1, 0, 3⟩⟩],
    [⟨"b1", "a1", "u1", 50, .active, 0, 0, 0, none⟩], [], []⟩

theorem getAuctionSnapshot_estimated_none_witness :
    ∃ snap, getAuctionSnapshot demoStC10 "a1" none 5 = .ok snap ∧
      (snap.auction.state ≠ .running ∨
        snap.auction.totalQuantity ≤ snap.auction.awardedCount) ∧
      snap.estimatedClearingPrice = none := by
  refine ⟨_, rfl, Or.inl (by decide), ?_⟩
  exact getAuctionSnapshot_estimated_none demoStC10 "a1" none 5 _ rfl
    (Or.inl (by decide))

theorem find?_mem_pred {α : Type} {p : α → Bool} {l : List α} {x : α}
    (h : l.find? p = some x) : x ∈ l ∧ p x = true :=
  ⟨List.mem_of_find?_eq_some h, List.find?_some h⟩

theorem findOneAndUpdate_ne_none_of_mem {α : Type} {p : α → Bool} {f : α → α}
    {l : List α} {x : α} (hx : x ∈ l) (hp : p x = true) :
    findOneAndUpdate p f l ≠ none := by
  intro h
  have := (findOneAndUpdate_eq_none).mp h x hx
  simp [hp] at this

theorem error_state_eq {α : Type} {E e : Err} {s0 s' : St}
    (h : (Except.error (E, s0) : Except (Err × St) α) = .error (e, s')) : s' = s0 := by
  simp only [Except.error.injEq, Prod.mk.injEq] at h
  exact h.2.symm

set_option maxHeartbeats 2000000 in
/-- C7: whenever placeBid throws, the state carried at the throw point is
the entry state: no partial mutation precedes any failure. -/
theorem placeBid_error_state (s : St) (aid : AuctionId) (uid : UserId) (amt now : Int)
    (bidId : BidId) (e : Err) (s' : St)
    (h : placeBid s aid uid amt now bidId = .error (e, s')) : s' = s := by
  unfold placeBid at h
  rcases hfindA : List.find? (fun a => a.id == aid) s.auctions with _ | auction
  · simp only [hfindA] at h
    repeat' first
      | split at h
      | simp only [] at h
    all_goals try (exact Except.noConfusion h)
    all_goals try (exact error_state_eq h)
  · simp only [hfindA] at h
    have hmemA := List.mem_of_find?_eq_some hfindA
    have hidA := List.find?_some hfindA
    split at h
    · exact error_state_eq h
    split at h
    · exact error_state_eq h
    rename_i hamt hopen
    push_neg at hopen
    rcases hre : auction.roundEndsAt with _ | rEnd <;> simp only [hre] at h
    · exact error_state_eq h
    split at h
    · exact error_state_eq h
    rename_i hnow
    rcases hfindB : List.find? (fun b => b.auctionId == aid && b.userId == uid) s.bids
      with _ | b <;> simp only [hfindB] at h
    · repeat' first
        | split at h
        | simp only [] at h
      all_goals try (exact Except.noConfusion h)
      all_goals try (exact error_state_eq h)
      all_goals
        exfalso
        rename_i x hupdA
        have hfalse := findOneAndUpdate_eq_none.mp hupdA auction hmemA
        simp [hidA, hopen.1, hopen.2] at hfalse
    · have hmemB := List.mem_of_find?_eq_some hfindB
      by_cases hact : b.status = BidStatus.active
      · simp only [hact] at h
        repeat' first
          | split at h
          | simp only [] at h
        all_goals try (exact Except.noConfusion h)
        all_goals try (exact error_state_eq h)
        all_goals try
          (exfalso
           exact (by assumption : ¬(BidStatus.active == BidStatus.active) = true) rfl)
        all_goals try
          (exfalso
           rename_i x hstep
           split at hstep <;>
             first
               | exact Except.noConfusion hstep
               | (rename_i hfu
                  have hfalse := findOneAndUpdate_eq_none.mp hfu b hmemB
                  simp [hact] at hfalse))
        all_goals
          exfalso
          rename_i s2 bid hstep x hupdA
          split at hstep <;>
            first
              | exact Except.noConfusion hstep
              | (simp only [Except.ok.injEq, Prod.mk.injEq] at hstep
                 obtain ⟨hs2, hbid⟩ := hstep
                 subst hs2
                 have hfalse := findOneAndUpdate_eq_none.mp hupdA auction hmemA
                 simp [hidA, hopen.1, hopen.2] at hfalse)
      · by_cases hwd : b.status = BidStatus.withdrawn
        · simp only [hwd] at h
          repeat' first
            | split at h
            | simp only [] at h
          all_goals try (exact Except.noConfusion h)
          all_goals try (exact error_state_eq h)
          all_goals try
            (exfalso
             exact Bool.noConfusion
               (by assumption : (BidStatus.withdrawn == BidStatus.active) = true))
          all_goals try
            (exfalso
             exact (by assumption : ¬(BidStatus.withdrawn == BidStatus.withdrawn) = true) rfl)
          all_goals try
            (exfalso
             rename_i x hstep
             split at hstep <;>
               first
                 | exact Except.noConfusion hstep
                 | (rename_i hfu
                    have hfalse := findOneAndUpdate_eq_none.mp hfu b hmemB
                    simp [hact, hwd] at hfalse))
          all_goals
            exfalso
            rename_i s2 bid hstep x hupdA
            split at hstep <;>
              first
                | exact Except.noConfusion hstep
                | (simp only [Except.ok.injEq, Prod.mk.injEq] at hstep
                   obtain ⟨hs2, hbid⟩ := hstep
                   subst hs2
                   have hfalse := findOneAndUpdate_eq_none.mp hupdA auction hmemA
                   simp [hidA, hopen.1, hopen.2] at hfalse)
        · split at h
          · exact error_state_eq h
          rename_i hcond
          exact absurd (by simp [hact, hwd]) hcond

def demoStOpen : St :=
  ⟨[⟨"u1", 0, ⟨0, 0, 0⟩, 0⟩, ⟨"u2", 0, ⟨100, 40, 0⟩, 140⟩],
   [⟨"a1", 0, 0, "t", .running, some 0, none, none, none, 3, 0, 0, 1, 0,
     some .open', some 1000, none, none, 1, ⟨60000, 2, 10000, 10000, 1, 0, 3⟩⟩],
   [⟨"b2", "a1", "u2", 40, .active, 0, 0, 0, none⟩], [], []⟩

theorem placeBid_error_state_witness :
    ∃ e s', placeBid demoStOpen "a1" "u1" 10 5 "b1" = .error (e, s') ∧ s' = demoStOpen := by
  refine ⟨.INSUFFICIENT_FUNDS, _, rfl, ?_⟩
  exact placeBid_error_state demoStOpen "a1" "u1" 10 5 "b1" .INSUFFICIENT_FUNDS _ rfl

set_option maxHeartbeats 1000000 in
/-- C6: placeBid is monotone per user and auction: when the user already has
an active bid of amount m, a successful call requires newAmount > m, and —
when the auction and round are open and the round has not ended — a call
with newAmount ≤ m fails with INVALID_INPUT. -/
theorem placeBid_monotone (s : St) (aid : AuctionId) (uid : UserId)
    (newAmount now : Int) (freshBidId : BidId) (b : BidDoc)
    (hfindB : s.bids.find? (fun b => b.auctionId == aid && b.userId == uid) = some b)
    (hact : b.status = BidStatus.active) :
    (∀ r, placeBid s aid uid newAmount now freshBidId = .ok r → b.amount < newAmount) ∧
    (∀ auction, s.auctions.find? (fun a => a.id == aid) = some auction →
      auction.state = .running → auction.roundState = some .open' →
      ∀ rEnd, auction.roundEndsAt = some rEnd → now < rEnd →
      newAmount ≤ b.amount →
      placeBid s aid uid newAmount now freshBidId = .error (.INVALID_INPUT, s)) := by
  constructor
  · intro r hok
    by_contra hlt
    push_neg at hlt
    unfold placeBid at hok
    simp only [hfindB, hact] at hok
    repeat' first
      | split at hok
      | simp only [] at hok
    all_goals try (exact Except.noConfusion hok)
    all_goals try (exact absurd hlt (by assumption))
    all_goals
      exfalso
      exact (by assumption : ¬(BidStatus.active == BidStatus.active) = true) rfl
  · intro auction hfindA hrun hropen rEnd hre hnow hle
    unfold placeBid
    by_cases h0 : newAmount ≤ 0
    · rw [if_pos h0]
    · rw [if_neg h0]
      simp only [hfindA, hfindB, hact, hrun, hre]
      rw [if_neg (by simp [hropen])]
      rw [if_neg (not_le.mpr hnow)]
      simp only [beq_self_eq_true, Bool.not_true, Bool.false_and, if_true]
      rw [if_neg (by simp)]
      rw [if_pos (by simpa using hle)]

theorem placeBid_monotone_witness :
    ((40 : Int) < 50 ∧ ∃ r, placeBid demoStOpen "a1" "u2" 50 5 "b9" = .ok r) ∧
      placeBid demoStOpen "a1" "u2" 30 5 "b9" = .error (.INVALID_INPUT, demoStOpen) := by
  have hm50 := placeBid_monotone demoStOpen "a1" "u2" 50 5 "b9"
    ⟨"b2", "a1", "u2", 40, .active, 0, 0, 0, none⟩ rfl rfl
  have hm30 := placeBid_monotone demoStOpen "a1" "u2" 30 5 "b9"
    ⟨"b2", "a1", "u2", 40, .active, 0, 0, 0, none⟩ rfl rfl
  refine ⟨⟨?_, ⟨_, rfl⟩⟩, ?_⟩
  · exact hm50.1 _ rfl
  · exact hm30.2 _ rfl rfl rfl 1000 rfl (by norm_num) (by norm_num)

theorem find?_middle_of_pred {α : Type} (q : α → Bool) (l₁ : List α) (x : α)
    (l₂ : List α) (hx : q x = true) (h₁ : ∀ z ∈ l₁, q z = false) :
    (l₁ ++ x :: l₂).find? q = some x := by
  induction l₁ with
  | nil => simp [List.find?, hx]
  | cons a as ih =>
    simp [List.find?, h₁ a (by simp), ih (fun z hz => h₁ z (by simp [hz]))]

set_option maxHeartbeats 1000000 in
/-- Full decomposition of a successful withdrawBid, from which both the
frame property and the financial invariant preservation follow. -/
theorem withdrawBid_decomp (s : St) (aid : AuctionId) (uid : UserId) (now : Int)
    (s' : St) (bid : BidDoc)
    (hok : withdrawBid s aid uid now = .ok (s', bid)) :
    bid.status = .withdrawn ∧
    s'.rounds = s.rounds ∧
    (∃ b0, s.bids.find? (fun b => b.auctionId == aid && b.userId == uid &&
        b.status == BidStatus.active) = some b0 ∧
      bid = { b0 with status := .withdrawn, updatedAt := now } ∧
      s'.ledger = s.ledger ++ [⟨now, uid, .unreserve, b0.amount, some aid⟩] ∧
      (∃ l₁ x l₂, s.bids = l₁ ++ x :: l₂ ∧
        s'.bids = l₁ ++ { x with status := .withdrawn, updatedAt := now } :: l₂) ∧
      (∃ u₁ u u₂, s.users = u₁ ++ u :: u₂ ∧ b0.amount ≤ u.balance.reserved ∧
        s'.users = u₁ ++
          { u with balance :=
            { u.balance with
              reserved := u.balance.reserved - b0.amount,
              available := u.balance.available + b0.amount } } :: u₂)) ∧
    (∃ a₁ a a₂, s.auctions = a₁ ++ a :: a₂ ∧
      s'.auctions = a₁ ++ { a with updatedAt := now, version := a.version + 1 } :: a₂) ∧
    (s'.auctions.find? (fun x => x.id == aid)).map (fun x => x.roundEndsAt) =
      (s.auctions.find? (fun x => x.id == aid)).map (fun x => x.roundEndsAt) := by
  unfold withdrawBid at hok
  rcases hfindA : List.find? (fun a => a.id == aid) s.auctions with _ | auction <;>
    simp only [hfindA] at hok
  · exact Except.noConfusion hok
  split at hok
  · exact Except.noConfusion hok
  rcases hre : auction.roundEndsAt with _ | rEnd <;> simp only [hre] at hok
  · exact Except.noConfusion hok
  split at hok
  · exact Except.noConfusion hok
  rcases hfindB : List.find? (fun b => b.auctionId == aid && b.userId == uid &&
      b.status == BidStatus.active) s.bids with _ | b0 <;> simp only [hfindB] at hok
  · exact Except.noConfusion hok
  rcases hub : updateOne (fun x => x.id == b0.id && x.status == BidStatus.active)
      (fun x => { x with status := .withdrawn, updatedAt := now }) s.bids
      with _ | bids' <;> simp only [hub] at hok
  · exact Except.noConfusion hok
  rcases huu : updateOne (fun u => u.id == uid && decide (b0.amount ≤ u.balance.reserved))
      (fun u =>
        { u with balance :=
          { u.balance with
            reserved := u.balance.reserved - b0.amount,
            available := u.balance.available + b0.amount } }) s.users
      with _ | users' <;> simp only [huu] at hok
  · exact Except.noConfusion hok
  rcases hua : updateOne (fun a => a.id == aid)
      (fun a => { a with updatedAt := now, version := a.version + 1 }) s.auctions
      with _ | auctions' <;> simp only [hua] at hok
  · exact Except.noConfusion hok
  simp only [Except.ok.injEq, Prod.mk.injEq] at hok
  obtain ⟨hs', hbid⟩ := hok
  subst hs'
  refine ⟨by rw [← hbid], rfl, ⟨b0, hfindB, hbid.symm, rfl, ?_, ?_⟩, ?_, ?_⟩
  · obtain ⟨l₁, x, l₂, h1, _, _, h4⟩ := updateOne_eq_some hub
    exact ⟨l₁, x, l₂, h1, h4⟩
  · obtain ⟨u₁, u, u₂, h1, h2, _, h4⟩ := updateOne_eq_some huu
    refine ⟨u₁, u, u₂, h1, ?_, h4⟩
    simp only [Bool.and_eq_true, decide_eq_true_eq] at h2
    exact h2.2
  · obtain ⟨a₁, a, a₂, h1, _, _, h4⟩ := updateOne_eq_some hua
    exact ⟨a₁, a, a₂, h1, h4⟩
  · obtain ⟨a₁, a, a₂, h1, h2, h3, h4⟩ := updateOne_eq_some hua
    rw [h1, h4]
    rw [find?_middle_of_pred _ a₁ _ a₂ h2 h3,
      find?_middle_of_pred _ a₁ _ a₂ (by simpa using h2) h3]
    rfl

/-- C9: a successful withdrawBid leaves rounds untouched, changes only
updatedAt and version on the auction document (in particular roundEndsAt is
unchanged, as witnessed both by the in-place update and by the final
lookup), flips the active bid to withdrawn, moves the bid amount from
reserved to available on one user predicated on sufficient reserve, and
appends exactly one unreserve ledger entry. -/
theorem withdrawBid_frame (s : St) (aid : AuctionId) (uid : UserId) (now : Int)
    (s' : St) (bid : BidDoc)
    (hok : withdrawBid s aid uid now = .ok (s', bid)) :
    bid.status = .withdrawn ∧
    s'.rounds = s.rounds ∧
    (∃ b0, s.bids.find? (fun b => b.auctionId == aid && b.userId == uid &&
        b.status == BidStatus.active) = some b0 ∧
      bid = { b0 with status := .withdrawn, updatedAt := now } ∧
      s'.ledger = s.ledger ++ [⟨now, uid, .unreserve, b0.amount, some aid⟩] ∧
      (∃ l₁ x l₂, s.bids = l₁ ++ x :: l₂ ∧
        s'.bids = l₁ ++ { x with status := .withdrawn, updatedAt := now } :: l₂) ∧
      (∃ u₁ u u₂, s.users = u₁ ++ u :: u₂ ∧ b0.amount ≤ u.balance.reserved ∧
        s'.users = u₁ ++
          { u with balance :=
            { u.balance with
              reserved := u.balance.reserved - b0.amount,
              available := u.balance.available + b0.amount } } :: u₂)) ∧
    (∃ a₁ a a₂, s.auctions = a₁ ++ a :: a₂ ∧
      s'.auctions = a₁ ++ { a with updatedAt := now, version := a.version + 1 } :: a₂) ∧
    (s'.auctions.find? (fun x => x.id == aid)).map (fun x => x.roundEndsAt) =
      (s.auctions.find? (fun x => x.id == aid)).map (fun x => x.roundEndsAt) :=
  withdrawBid_decomp s aid uid now s' bid hok

theorem withdrawBid_frame_witness :
    ∃ s' bid, withdrawBid demoStOpen "a1" "u2" 5 = .ok (s', bid) ∧
      bid.status = .withdrawn ∧ s'.rounds = demoStOpen.rounds ∧
      (s'.auctions.find? (fun x => x.id == "a1")).map (fun x => x.roundEndsAt) =
        (demoStOpen.auctions.find? (fun x => x.id == "a1")).map (fun x => x.roundEndsAt) := by
  obtain ⟨h1, h2, _, _, h5⟩ := withdrawBid_frame demoStOpen "a1" "u2" 5 _ _ rfl
  exact ⟨_, _, rfl, h1, h2, h5⟩

/-! ### Financial invariants (C1) -/

/-- P1 for one user document. -/
def userOk (u : UserDoc) : Prop :=
  u.totalTopups = u.balance.available + u.balance.reserved + u.balance.spent ∧
  0 ≤ u.balance.available ∧ 0 ≤ u.balance.reserved ∧ 0 ≤ u.balance.spent

def usersOk (l : List UserDoc) : Prop := ∀ u ∈ l, userOk u

def bidsPos (l : List BidDoc) : Prop := ∀ b ∈ l, 0 < b.amount

def MoneyInv (s : St) : Prop := usersOk s.users

def BidsPos (s : St) : Prop := bidsPos s.bids

theorem usersOk_topup {userId : UserId} {amount : Int} (hamt : 0 < amount)
    {l l' : List UserDoc}
    (h : updateOne (fun u => u.id == userId)
      (fun u =>
        { u with
          balance := { u.balance with available := u.balance.available + amount },
          totalTopups := u.totalTopups + amount }) l = some l')
    (hP : usersOk l) : usersOk l' := by
  refine updateOne_forall ?_ h hP
  intro x _ hx
  obtain ⟨he, h1, h2, h3⟩ := hx
  exact ⟨by simp only []; omega, by simp only []; omega, h2, h3⟩

theorem usersOk_reserve {userId : UserId} {delta : Int} (hdelta : 0 < delta)
    {l l' : List UserDoc}
    (h : updateOne (fun u => u.id == userId && decide (delta ≤ u.balance.available))
      (fun u =>
        { u with
          balance :=
            { u.balance with
              available := u.balance.available - delta,
              reserved := u.balance.reserved + delta } }) l = some l')
    (hP : usersOk l) : usersOk l' := by
  refine updateOne_forall ?_ h hP
  intro x hpx hx
  simp only [Bool.and_eq_true, decide_eq_true_eq] at hpx
  obtain ⟨he, h1, h2, h3⟩ := hx
  refine ⟨by simp only []; omega, by simp only []; omega, by simp only []; omega, h3⟩

theorem usersOk_unreserve {userId : UserId} {amount : Int} (hamt : 0 < amount)
    {l l' : List UserDoc}
    (h : updateOne (fun u => u.id == userId && decide (amount ≤ u.balance.reserved))
      (fun u =>
        { u with
          balance :=
            { u.balance with
              reserved := u.balance.reserved - amount,
              available := u.balance.available + amount } }) l = some l')
    (hP : usersOk l) : usersOk l' := by
  refine updateOne_forall ?_ h hP
  intro x hpx hx
  simp only [Bool.and_eq_true, decide_eq_true_eq] at hpx
  obtain ⟨he, h1, h2, h3⟩ := hx
  refine ⟨by simp only []; omega, by simp only []; omega, by simp only []; omega, h3⟩

theorem usersOk_spend {userId : UserId} {amount paid refunded : Int}
    (hpaid : 0 ≤ paid) (hrefunded : 0 ≤ refunded) (hsum : amount = paid + refunded)
    {l l' : List UserDoc}
    (h : updateOne (fun u => u.id == userId && decide (amount ≤ u.balance.reserved))
      (fun u =>
        { u with
          balance :=
            ⟨u.balance.available + refunded, u.balance.reserved - amount,
              u.balance.spent + paid⟩ }) l = some l')
    (hP : usersOk l) : usersOk l' := by
  refine updateOne_forall ?_ h hP
  intro x hpx hx
  simp only [Bool.and_eq_true, decide_eq_true_eq] at hpx
  obtain ⟨he, h1, h2, h3⟩ := hx
  refine ⟨by simp only []; omega, by simp only []; omega, by simp only []; omega,
    by simp only []; omega⟩

theorem bidsPos_status_update {p : BidDoc → Bool} {f : BidDoc → BidDoc}
    {l l' : List BidDoc} (h : updateOne p f l = some l')
    (hf : ∀ b, (f b).amount = b.amount) (hP : bidsPos l) : bidsPos l' := by
  refine updateOne_forall ?_ h hP
  intro x _ hx
  rw [hf x]
  exact hx

theorem cancelRefundLoop_inv (now : Int) (aid : AuctionId) :
    ∀ (bs : List BidDoc) (s s' : St),
      cancelRefundLoop now aid s bs = .ok s' →
      (∀ b ∈ bs, 0 < b.amount) →
      usersOk s.users → bidsPos s.bids →
      usersOk s'.users ∧ bidsPos s'.bids
  | [], s, s', h, _, hu, hb => by
    simp only [cancelRefundLoop, Except.ok.injEq] at h
    exact h ▸ ⟨hu, hb⟩
  | b :: rest, s, s', h, hbs, hu, hb => by
    unfold cancelRefundLoop at h
    rcases h1 : updateOne (fun x => x.id == b.id && x.status == BidStatus.active)
        (fun x => { x with status := .withdrawn, updatedAt := now }) s.bids
        with _ | bids' <;> simp only [h1] at h
    · exact Except.noConfusion h
    rcases h2 : updateOne (fun u => u.id == b.userId && decide (b.amount ≤ u.balance.reserved))
        (fun u =>
          { u with
            balance :=
              { u.balance with
                reserved := u.balance.reserved - b.amount,
                available := u.balance.available + b.amount } }) s.users
        with _ | users' <;> simp only [h2] at h
    · exact Except.noConfusion h
    exact cancelRefundLoop_inv now aid rest _ s' h
      (fun x hx => hbs x (by simp [hx]))
      (usersOk_unreserve (hbs b (by simp)) h2 hu)
      (bidsPos_status_update h1 (fun x => rfl) hb)

theorem endRefundLoop_inv (now : Int) (aid : AuctionId) :
    ∀ (bs : List BidDoc) (s s' : St),
      endRefundLoop now aid s bs = .ok s' →
      (∀ b ∈ bs, 0 < b.amount) →
      usersOk s.users → bidsPos s.bids →
      usersOk s'.users ∧ bidsPos s'.bids
  | [], s, s', h, _, hu, hb => by
    simp only [endRefundLoop, Except.ok.injEq] at h
    exact h ▸ ⟨hu, hb⟩
  | b :: rest, s, s', h, hbs, hu, hb => by
    unfold endRefundLoop at h
    rcases h1 : updateOne (fun x => x.id == b.id && x.status == BidStatus.active)
        (fun x => { x with status := .lost, updatedAt := now }) s.bids
        with _ | bids' <;> simp only [h1] at h
    · exact Except.noConfusion h
    rcases h2 : updateOne (fun u => u.id == b.userId && decide (b.amount ≤ u.balance.reserved))
        (fun u =>
          { u with
            balance :=
              { u.balance with
                reserved := u.balance.reserved - b.amount,
                available := u.balance.available + b.amount } }) s.users
        with _ | users' <;> simp only [h2] at h
    · exact Except.noConfusion h
    exact endRefundLoop_inv now aid rest _ s' h
      (fun x hx => hbs x (by simp [hx]))
      (usersOk_unreserve (hbs b (by simp)) h2 hu)
      (bidsPos_status_update h1 (fun x => rfl) hb)

theorem settleWinnersLoop_inv (now currentRound clearingPrice : Int) (aid : AuctionId) :
    ∀ (ws : List SettleWinner) (s s' : St),
      settleWinnersLoop now currentRound clearingPrice aid s ws = .ok s' →
      (∀ w ∈ ws, 0 ≤ w.paid ∧ 0 ≤ w.refunded ∧ w.amount = w.paid + w.refunded) →
      usersOk s.users → bidsPos s.bids →
      usersOk s'.users ∧ bidsPos s'.bids
  | [], s, s', h, _, hu, hb => by
    simp only [settleWinnersLoop, Except.ok.injEq] at h
    exact h ▸ ⟨hu, hb⟩
  | w :: rest, s, s', h, hws, hu, hb => by
    unfold settleWinnersLoop at h
    rcases h1 : updateOne (fun b => b.id == w.bidId && b.status == BidStatus.active)
        (fun b =>
          { b with
            status := .won, updatedAt := now,
            settlement := some ⟨currentRound, w.giftSerial, clearingPrice, w.paid,
              w.refunded, now⟩ }) s.bids
        with _ | bids' <;> simp only [h1] at h
    · exact Except.noConfusion h
    rcases h2 : updateOne (fun u => u.id == w.userId && decide (w.amount ≤ u.balance.reserved))
        (fun u =>
          { u with
            balance :=
              ⟨u.balance.available + w.refunded, u.balance.reserved - w.amount,
                u.balance.spent + w.paid⟩ }) s.users
        with _ | users' <;> simp only [h2] at h
    · exact Except.noConfusion h
    have hw := hws w (by simp)
    exact settleWinnersLoop_inv now currentRound clearingPrice aid rest _ s' h
      (fun x hx => hws x (by simp [hx]))
      (usersOk_spend hw.1 hw.2.1 hw.2.2 h2 hu)
      (bidsPos_status_update h1 (fun x => rfl) hb)

theorem pairwise_le_getLast {α : Type} {le : α → α → Bool} :
    ∀ {l : List α}, List.Pairwise (fun a b => le a b = true) l →
      ∀ x ∈ l, ∀ z, l.getLast? = some z → le x z = true ∨ x = z
  | [], _, x, hx, _, _ => absurd hx (by simp)
  | [a], _, x, hx, z, hz => by
    simp only [List.mem_singleton] at hx
    simp only [List.getLast?_singleton, Option.some.injEq] at hz
    exact Or.inr (hx.trans hz)
  | a :: b :: l, hp, x, hx, z, hz => by
    rw [List.getLast?_cons_cons] at hz
    rcases List.mem_cons.mp hx with hx | hx
    · have hzmem : z ∈ b :: l := List.mem_of_getLast?_eq_some hz
      exact hx ▸ Or.inl ((List.pairwise_cons.mp hp).1 z hzmem)
    · exact pairwise_le_getLast (List.pairwise_cons.mp hp).2 x hx z hz

theorem winnerBidsOf_subset {s : St} {aid : AuctionId} {wc : Int} :
    ∀ b ∈ winnerBidsOf s aid wc, b ∈ s.bids ∧
      (b.auctionId == aid && b.status == BidStatus.active) = true := by
  intro b hb
  unfold winnerBidsOf at hb
  split at hb
  · have hmem := List.take_subset _ _ hb
    unfold sortedActiveBids at hmem
    rw [List.mem_mergeSort] at hmem
    have := List.mem_filter.mp hmem
    exact ⟨this.1, this.2⟩
  · simp at hb

theorem winnerBidsOf_sorted (s : St) (aid : AuctionId) (wc : Int) :
    List.Pairwise (fun a b => bidRankLE a b = true) (winnerBidsOf s aid wc) := by
  unfold winnerBidsOf
  split
  · exact (mergeSort_bidRankLE_sorted _).sublist (List.take_sublist _ _)
  · exact List.Pairwise.nil

theorem clearingPriceOf_le {wb : List BidDoc}
    (hsorted : List.Pairwise (fun a b => bidRankLE a b = true) wb)
    {b : BidDoc} (hb : b ∈ wb) : clearingPriceOf wb ≤ b.amount := by
  unfold clearingPriceOf
  match hlast : wb.getLast? with
  | none =>
    rw [List.getLast?_eq_none_iff] at hlast
    subst hlast
    exact absurd hb (by simp)
  | some z =>
    rcases pairwise_le_getLast hsorted b hb z hlast with hle | heq
    · exact bidRankLE_amount_ge hle
    · exact le_of_eq (by rw [heq])

theorem clearingPriceOf_pos {s : St} {aid : AuctionId} {wc : Int}
    (hb : bidsPos s.bids) (hne : winnerBidsOf s aid wc ≠ []) :
    0 < clearingPriceOf (winnerBidsOf s aid wc) := by
  unfold clearingPriceOf
  match hlast : (winnerBidsOf s aid wc).getLast? with
  | none =>
    rw [List.getLast?_eq_none_iff] at hlast
    exact absurd hlast hne
  | some z =>
    exact hb z (winnerBidsOf_subset z (List.mem_of_getLast?_eq_some hlast)).1

theorem settleWinners_mem {wb : List BidDoc} {ac cp : Int} {w : SettleWinner}
    (hw : w ∈ settleWinners wb ac cp) :
    ∃ b ∈ wb, w.amount = b.amount ∧ w.paid = cp ∧ w.refunded = b.amount - cp ∧
      w.bidId = b.id ∧ w.userId = b.userId := by
  unfold settleWinners at hw
  rw [List.mem_map] at hw
  obtain ⟨p, hp, hpw⟩ := hw
  have hmem : p.2 ∈ wb := by
    have := List.mem_enum_iff_get?.mp hp
    exact List.get?_mem this
  exact ⟨p.2, hmem, by rw [← hpw], by rw [← hpw], by rw [← hpw], by rw [← hpw],
    by rw [← hpw]⟩

theorem settleWinners_props {s : St} {aid : AuctionId} {wc ac : Int}
    (hb : bidsPos s.bids) :
    ∀ w ∈ settleWinners (winnerBidsOf s aid wc) ac
        (clearingPriceOf (winnerBidsOf s aid wc)),
      0 ≤ w.paid ∧ 0 ≤ w.refunded ∧ w.amount = w.paid + w.refunded := by
  intro w hw
  obtain ⟨b, hbmem, hamt, hpaid, href, _, _⟩ := settleWinners_mem hw
  have hle := clearingPriceOf_le (winnerBidsOf_sorted s aid wc) hbmem
  have hpos : 0 < clearingPriceOf (winnerBidsOf s aid wc) :=
    clearingPriceOf_pos hb (fun hnil => by rw [hnil] at hbmem; simp at hbmem)
  refine ⟨by omega, by omega, by omega⟩

theorem findOneAndUpdate_updateOne {α : Type} {p : α → Bool} {f : α → α}
    {l : List α} {y : α} {l' : List α}
    (h : findOneAndUpdate p f l = some (y, l')) : updateOne p f l = some l' := by
  simp [updateOne, h]

theorem topup_inv {s : St} {uid : UserId} {amt now : Int} {r : St × UserDoc}
    (hok : topupUser s uid amt now = .ok r)
    (hM : MoneyInv s) (hB : BidsPos s) : MoneyInv r.1 ∧ BidsPos r.1 := by
  unfold topupUser at hok
  split at hok
  · exact Except.noConfusion hok
  rename_i hamt
  push_neg at hamt
  split at hok
  · exact Except.noConfusion hok
  rename_i user users' hfu
  simp only [Except.ok.injEq] at hok
  rw [← hok]
  exact ⟨usersOk_topup hamt (findOneAndUpdate_updateOne hfu) hM, hB⟩

theorem startAuction_inv {s : St} {aid : AuctionId} {now : Int} {r : St × AuctionDoc}
    (hok : startAuction s aid now = .ok r)
    (hM : MoneyInv s) (hB : BidsPos s) : MoneyInv r.1 ∧ BidsPos r.1 := by
  unfold startAuction at hok
  repeat' first
    | split at hok
    | simp only [] at hok
  all_goals try (exact Except.noConfusion hok)
  all_goals
    simp only [Except.ok.injEq] at hok
    rw [← hok]
    exact ⟨hM, hB⟩

theorem createAuction_inv {s : St} {input : CreateAuctionInput} {fid : AuctionId}
    {now : Int} {r : St × AuctionDoc}
    (hok : createAuction s input fid now = .ok r)
    (hM : MoneyInv s) (hB : BidsPos s) : MoneyInv r.1 ∧ BidsPos r.1 := by
  unfold createAuction at hok
  split at hok
  · exact Except.noConfusion hok
  split at hok
  · exact Except.noConfusion hok
  simp only [Except.ok.injEq] at hok
  rw [← hok]
  exact ⟨hM, hB⟩

theorem cancelAuction_inv {s : St} {aid : AuctionId} {now : Int} {r : St × AuctionDoc}
    (hok : cancelAuction s aid now = .ok r)
    (hM : MoneyInv s) (hB : BidsPos s) : MoneyInv r.1 ∧ BidsPos r.1 := by
  unfold cancelAuction at hok
  split at hok
  · exact Except.noConfusion hok
  rename_i auction auctions' hfu
  simp only [] at hok
  split at hok
  · exact Except.noConfusion hok
  rename_i s2 hloop
  simp only [Except.ok.injEq] at hok
  rw [← hok]
  have hsub : ∀ b ∈ ({ s with auctions := auctions' } : St).bids.filter
      (fun b => b.auctionId == aid && b.status == BidStatus.active), 0 < b.amount :=
    fun b hbm => hB b (List.mem_filter.mp hbm).1
  exact cancelRefundLoop_inv now aid _ _ _ hloop hsub hM hB

theorem bidsPos_update {p : BidDoc → Bool} {f : BidDoc → BidDoc}
    {l l' : List BidDoc} (h : updateOne p f l = some l')
    (hf : ∀ b, 0 < b.amount → 0 < (f b).amount) (hP : bidsPos l) : bidsPos l' :=
  updateOne_forall (fun x _ hx => hf x hx) h hP

set_option maxHeartbeats 2000000 in
theorem placeBid_inv {s : St} {aid uid : String} {amt now : Int} {fresh : BidId}
    {r : St × AuctionDoc × BidDoc}
    (hok : placeBid s aid uid amt now fresh = .ok r)
    (hM : MoneyInv s) (hB : BidsPos s) : MoneyInv r.1 ∧ BidsPos r.1 := by
  unfold placeBid at hok
  split at hok
  · exact Except.noConfusion hok
  rename_i h0
  push_neg at h0
  rcases hfindA : List.find? (fun a => a.id == aid) s.auctions with _ | auction <;>
    simp only [hfindA] at hok
  · exact Except.noConfusion hok
  split at hok
  · exact Except.noConfusion hok
  rcases hre : auction.roundEndsAt with _ | rEnd <;> simp only [hre] at hok
  · exact Except.noConfusion hok
  split at hok
  · exact Except.noConfusion hok
  rcases hfindB : List.find? (fun b => b.auctionId == aid && b.userId == uid) s.bids
    with _ | b <;> simp only [hfindB] at hok
  · rw [if_neg (fun hc : false = true => Bool.noConfusion hc)] at hok
    rw [if_neg (not_le.mpr h0)] at hok
    split at hok
    · exact Except.noConfusion hok
    rename_i users' huu
    try simp only [] at hok
    split at hok
    · exact Except.noConfusion hok
    rename_i ua auctions' hua
    simp only [Except.ok.injEq] at hok
    have h1 : usersOk users' := usersOk_reserve (by omega) huu hM
    have h2 : bidsPos (s.bids ++
        [⟨fresh, aid, uid, amt, .active, now, now, now, none⟩]) := by
      intro x hx
      rcases List.mem_append.mp hx with hx | hx
      · exact hB x hx
      · rcases List.mem_singleton.mp hx with rfl
        simpa using h0
    rw [← hok]
    exact ⟨h1, h2⟩
  · by_cases hact : b.status = BidStatus.active
    · simp only [hact] at hok
      rw [if_neg (by decide :
        ¬(!(BidStatus.active == BidStatus.active) &&
          !(BidStatus.active == BidStatus.withdrawn)) = true)] at hok
      rw [if_pos (by decide : (BidStatus.active == BidStatus.active) = true)] at hok
      split at hok
      · exact Except.noConfusion hok
      rename_i hgt
      push_neg at hgt
      split at hok
      · exact Except.noConfusion hok
      rename_i users' huu
      try simp only [] at hok
      rw [if_pos (by decide : (BidStatus.active == BidStatus.active) = true)] at hok
      split at hok
      · exact Except.noConfusion hok
      rename_i s2 bidr hstep
      split at hstep
      · exact Except.noConfusion hstep
      rename_i bid0 bids' hfu
      simp only [Except.ok.injEq, Prod.mk.injEq] at hstep
      obtain ⟨hs2, hbidr⟩ := hstep
      subst hs2
      try simp only [] at hok
      split at hok
      · exact Except.noConfusion hok
      rename_i ua auctions' hua
      simp only [Except.ok.injEq] at hok
      have h1 : usersOk users' := usersOk_reserve (by omega) huu hM
      have h2 : bidsPos bids' :=
        bidsPos_update (findOneAndUpdate_updateOne hfu)
          (fun x _ => by simp only []; omega) hB
      rw [← hok]
      exact ⟨h1, h2⟩
    · by_cases hwd : b.status = BidStatus.withdrawn
      · simp only [hwd] at hok
        rw [if_neg (by decide :
          ¬(!(BidStatus.withdrawn == BidStatus.active) &&
            !(BidStatus.withdrawn == BidStatus.withdrawn)) = true)] at hok
        rw [if_neg (by decide : ¬(BidStatus.withdrawn == BidStatus.active) = true)] at hok
        rw [if_neg (not_le.mpr h0)] at hok
        split at hok
        · exact Except.noConfusion hok
        rename_i users' huu
        try simp only [] at hok
        rw [if_neg (by decide : ¬(BidStatus.withdrawn == BidStatus.active) = true)] at hok
        split at hok
        · exact Except.noConfusion hok
        rename_i s2 bidr hstep
        split at hstep
        · exact Except.noConfusion hstep
        rename_i bid0 bids' hfu
        simp only [Except.ok.injEq, Prod.mk.injEq] at hstep
        obtain ⟨hs2, hbidr⟩ := hstep
        subst hs2
        try simp only [] at hok
        split at hok
        · exact Except.noConfusion hok
        rename_i ua auctions' hua
        simp only [Except.ok.injEq] at hok
        have h1 : usersOk users' := usersOk_reserve (by omega) huu hM
        have h2 : bidsPos bids' :=
          bidsPos_update (findOneAndUpdate_updateOne hfu)
            (fun x _ => by simp only []; omega) hB
        rw [← hok]
        exact ⟨h1, h2⟩
      · rw [if_pos (by simp [hact, hwd])] at hok
        exact Except.noConfusion hok

theorem withdrawBid_inv {s : St} {aid uid : String} {now : Int} {r : St × BidDoc}
    (hok : withdrawBid s aid uid now = .ok r)
    (hM : MoneyInv s) (hB : BidsPos s) : MoneyInv r.1 ∧ BidsPos r.1 := by
  obtain ⟨_, _, ⟨b0, hfindB, _, _, ⟨l₁, x, l₂, hb1, hb2⟩, ⟨u₁, u, u₂, hu1, hur, hu2⟩⟩,
    _, _⟩ := withdrawBid_decomp s aid uid now r.1 r.2 hok
  have hb0pos : 0 < b0.amount := hB b0 (List.mem_of_find?_eq_some hfindB)
  constructor
  · unfold MoneyInv usersOk
    rw [hu2]
    intro z hz
    rcases List.mem_append.mp hz with hz | hz
    · exact hM z (by rw [hu1]; exact List.mem_append_left _ hz)
    · rcases List.mem_cons.mp hz with hz | hz
      · obtain ⟨he, ha, hres, hsp⟩ := hM u (by rw [hu1]; simp)
        subst hz
        refine ⟨by simp only []; omega, by simp only []; omega,
          by simp only []; omega, by simp only []; omega⟩
      · exact hM z (by rw [hu1]; exact List.mem_append_right _ (List.mem_cons_of_mem _ hz))
  · unfold BidsPos bidsPos
    rw [hb2]
    intro z hz
    rcases List.mem_append.mp hz with hz | hz
    · exact hB z (by rw [hb1]; exact List.mem_append_left _ hz)
    · rcases List.mem_cons.mp hz with hz | hz
      · have hxpos : 0 < x.amount := hB x (by rw [hb1]; simp)
        subst hz
        simpa using hxpos
      · exact hB z (by rw [hb1]; exact List.mem_append_right _ (List.mem_cons_of_mem _ hz))

set_option maxHeartbeats 1000000 in
theorem settleBody_inv {s : St} {aid : AuctionId} {tok : String} {now : Int} {s' : St}
    (hok : settleClosingAuctionBody s aid tok now = .ok s')
    (hM : MoneyInv s) (hB : BidsPos s) : MoneyInv s' ∧ BidsPos s' := by
  unfold settleClosingAuctionBody at hok
  rcases hfind : List.find? (settlePred aid tok) s.auctions with _ | auction <;>
    simp only [hfind] at hok
  · simp only [Except.ok.injEq] at hok
    rw [← hok]
    exact ⟨hM, hB⟩
  rcases hends : auction.endsAt with _ | ae <;> simp only [hends] at hok <;>
  · split at hok
    · exact Except.noConfusion hok
    rename_i hdup
    try simp only [] at hok
    split at hok
    · exact Except.noConfusion hok
    rename_i s2 hloop
    have h2 := settleWinnersLoop_inv now auction.currentRound _ aid _ _ s2 hloop
      (settleWinners_props hB) hM hB
    repeat' first
      | split at hok
      | simp only [] at hok
    all_goals try (exact Except.noConfusion hok)
    all_goals try
      (simp only [Except.ok.injEq] at hok
       rw [← hok]
       exact ⟨h2.1, h2.2⟩)
    all_goals
      rename_i x1 s3 hrefund x2 auctions' hupd
      simp only [Except.ok.injEq] at hok
      have h3 := endRefundLoop_inv now aid _ s2 s3 hrefund
        (fun b hbm => h2.2 b (List.mem_filter.mp hbm).1) h2.1 h2.2
      rw [← hok]
      exact ⟨h3.1, h3.2⟩

/-- The transactional operations of the service, with their non-deterministic
inputs (fresh ids, clock readings) made explicit. -/
inductive Op
  | createUser (freshId : UserId) (now : Int)
  | topup (userId : UserId) (amount now : Int)
  | createAuction (input : CreateAuctionInput) (freshId : AuctionId) (now : Int)
  | startAuction (auctionId : AuctionId) (now : Int)
  | cancelAuction (auctionId : AuctionId) (now : Int)
  | placeBid (auctionId : AuctionId) (userId : UserId) (newAmount now : Int)
      (freshBidId : BidId)
  | withdrawBid (auctionId : AuctionId) (userId : UserId) (now : Int)
  | settleRound (auctionId : AuctionId) (closingToken : String) (now : Int)

/-- The committed store after one operation: the transaction result on
success, the unchanged store when the transaction aborts. -/
def applyOp (s : St) : Op → St
  | .createUser fid now => (createUser s fid now).1
  | .topup uid amt now =>
    match topupUser s uid amt now with
    | .ok r => r.1
    | .error _ => s
  | .createAuction input fid now =>
    match createAuction s input fid now with
    | .ok r => r.1
    | .error _ => s
  | .startAuction aid now =>
    match startAuction s aid now with
    | .ok r => r.1
    | .error _ => s
  | .cancelAuction aid now =>
    match cancelAuction s aid now with
    | .ok r => r.1
    | .error _ => s
  | .placeBid aid uid amt now fresh =>
    match placeBid s aid uid amt now fresh with
    | .ok r => r.1
    | .error _ => s
  | .withdrawBid aid uid now =>
    match withdrawBid s aid uid now with
    | .ok r => r.1
    | .error _ => s
  | .settleRound aid tok now => settleClosingAuction s aid tok now

/-- C1: money conservation.  For every user, after every completed operation
(including createUser, topup, placeBid, withdrawBid, cancelAuction and
round settlement), totalTopups = available + reserved + spent and each of
the three balance fields is nonnegative; the auxiliary fact that every bid
amount stays positive is carried along as part of the induction. -/
theorem money_conservation (s : St) (op : Op) (hM : MoneyInv s) (hB : BidsPos s) :
    MoneyInv (applyOp s op) ∧ BidsPos (applyOp s op) := by
  cases op with
  | createUser fid now =>
    constructor
    · intro u hu
      rcases List.mem_append.mp hu with hu | hu
      · exact hM u hu
      · rcases List.mem_singleton.mp hu with rfl
        exact ⟨by norm_num, by norm_num, by norm_num, by norm_num⟩
    · exact hB
  | topup uid amt now =>
    simp only [applyOp]
    split
    · exact topup_inv (by assumption) hM hB
    · exact ⟨hM, hB⟩
  | createAuction input fid now =>
    simp only [applyOp]
    split
    · exact createAuction_inv (by assumption) hM hB
    · exact ⟨hM, hB⟩
  | startAuction aid now =>
    simp only [applyOp]
    split
    · exact startAuction_inv (by assumption) hM hB
    · exact ⟨hM, hB⟩
  | cancelAuction aid now =>
    simp only [applyOp]
    split
    · exact cancelAuction_inv (by assumption) hM hB
    · exact ⟨hM, hB⟩
  | placeBid aid uid amt now fresh =>
    simp only [applyOp]
    split
    · exact placeBid_inv (by assumption) hM hB
    · exact ⟨hM, hB⟩
  | withdrawBid aid uid now =>
    simp only [applyOp]
    split
    · exact withdrawBid_inv (by assumption) hM hB
    · exact ⟨hM, hB⟩
  | settleRound aid tok now =>
    simp only [applyOp]
    unfold settleClosingAuction
    split
    · exact settleBody_inv (by assumption) hM hB
    · exact ⟨hM, hB⟩

theorem money_conservation_witness :
    MoneyInv (applyOp demoStOpen (.topup "u1" 100 7)) ∧
      BidsPos (applyOp demoStOpen (.topup "u1" 100 7)) :=
  money_conservation demoStOpen (.topup "u1" 100 7)
    (by unfold MoneyInv usersOk userOk; decide)
    (by unfold BidsPos bidsPos; decide)

/-- C4: settlement idempotence at the Round unique key.  When the auction
still matches the closing predicate with the same token but a Round
document for (auctionId, currentRound) already exists, the transaction body
raises exactly the duplicate-key error from the Round insert; the catch in
settleClosingAuction treats it as already settled and swallows it, so the
committed store — Round contents, bids, balances and ledger — is unchanged
and nothing is charged again. -/
theorem settle_duplicate_round_swallowed (s : St) (aid : AuctionId) (tok : String)
    (now : Int) (auction : AuctionDoc)
    (hfind : s.auctions.find? (settlePred aid tok) = some auction)
    (hdup : s.rounds.any
      (fun r => r.auctionId == aid && r.roundNumber == auction.currentRound) = true) :
    settleClosingAuctionBody s aid tok now = .error (.DUPLICATE_KEY, s) ∧
    settleClosingAuction s aid tok now = s := by
  have hbody : settleClosingAuctionBody s aid tok now = .error (.DUPLICATE_KEY, s) := by
    unfold settleClosingAuctionBody
    simp only [hfind]
    rw [if_pos hdup]
  refine ⟨hbody, ?_⟩
  unfold settleClosingAuction
  rw [hbody]

def demoStClosing : St :=
  ⟨[⟨"u2", 0, ⟨100, 40, 0⟩, 140⟩],
   [⟨"a1", 0, 0, "t", .running, some 0, none, none, none, 3, 0, 0, 1, 0,
     some .closing, some 1000, some "tok1", some 900, 2, ⟨60000, 2, 10000, 10000, 1, 0, 3⟩⟩],
   [⟨"b2", "a1", "u2", 40, .active, 0, 0, 0, none⟩],
   [⟨"a1", 1, 950, 40, [⟨"u2", 40, 1, 40, 0⟩]⟩], []⟩

theorem settle_duplicate_round_swallowed_witness :
    settleClosingAuctionBody demoStClosing "a1" "tok1" 960 =
        .error (.DUPLICATE_KEY, demoStClosing) ∧
      settleClosingAuction demoStClosing "a1" "tok1" 960 = demoStClosing :=
  settle_duplicate_round_swallowed demoStClosing "a1" "tok1" 960 _ rfl (by decide)

/-! ### Anti-snipe clamp invariant (C8) -/

/-- roundEndsAt ≤ endsAt whenever both are set, checked on one auction
document. -/
def clampOkB (a : AuctionDoc) : Bool :=
  match a.endsAt, a.roundEndsAt with
  | some e, some r => decide (r ≤ e)
  | _, _ => true

theorem clampOkB_iff (a : AuctionDoc) :
    clampOkB a = true ↔
      ∀ e r, a.endsAt = some e → a.roundEndsAt = some r → r ≤ e := by
  rcases he : a.endsAt with _ | e <;> rcases hr : a.roundEndsAt with _ | r <;>
    simp [clampOkB, he, hr]

def ClampInv (s : St) : Prop := ∀ a ∈ s.auctions, clampOkB a = true

def AuctionIdsNodup (s : St) : Prop := (s.auctions.map (fun a => a.id)).Nodup

/-- The auction id an operation mints, when it mints one, is fresh (Mongo
ObjectIds are globally unique). -/
def opAuctionFresh (s : St) : Op → Prop
  | .createAuction _ fid _ => ∀ a ∈ s.auctions, a.id ≠ fid
  | _ => True

theorem updateOne_map_congr {α β : Type} {p : α → Bool} {f : α → α} (g : α → β)
    {l l' : List α} (h : updateOne p f l = some l')
    (hg : ∀ x, p x = true → g (f x) = g x) : l'.map g = l.map g := by
  obtain ⟨l₁, x, l₂, h1, h2, _, h4⟩ := updateOne_eq_some h
  rw [h1, h4]
  simp [hg x h2]

theorem auction_id_unique {l : List AuctionDoc}
    (hnd : (l.map (fun a => a.id)).Nodup) {x y : AuctionDoc}
    (hx : x ∈ l) (hy : y ∈ l) (hid : x.id = y.id) : x = y :=
  List.inj_on_of_nodup_map hnd hx hy hid

theorem topup_auctions {s : St} {uid : UserId} {amt now : Int} {r : St × UserDoc}
    (hok : topupUser s uid amt now = .ok r) : r.1.auctions = s.auctions := by
  unfold topupUser at hok
  split at hok
  · exact Except.noConfusion hok
  split at hok
  · exact Except.noConfusion hok
  simp only [Except.ok.injEq] at hok
  rw [← hok]

theorem cancelRefundLoop_auctions (now : Int) (aid : AuctionId) :
    ∀ (bs : List BidDoc) (s s' : St),
      cancelRefundLoop now aid s bs = .ok s' → s'.auctions = s.auctions
  | [], s, s', h => by
    simp only [cancelRefundLoop, Except.ok.injEq] at h
    rw [← h]
  | b :: rest, s, s', h => by
    unfold cancelRefundLoop at h
    split at h
    · exact Except.noConfusion h
    simp only [] at h
    split at h
    · exact Except.noConfusion h
    have hrec := cancelRefundLoop_auctions now aid rest _ s' h
    exact hrec

theorem endRefundLoop_auctions (now : Int) (aid : AuctionId) :
    ∀ (bs : List BidDoc) (s s' : St),
      endRefundLoop now aid s bs = .ok s' → s'.auctions = s.auctions
  | [], s, s', h => by
    simp only [endRefundLoop, Except.ok.injEq] at h
    rw [← h]
  | b :: rest, s, s', h => by
    unfold endRefundLoop at h
    split at h
    · exact Except.noConfusion h
    simp only [] at h
    split at h
    · exact Except.noConfusion h
    have hrec := endRefundLoop_auctions now aid rest _ s' h
    exact hrec

theorem settleWinnersLoop_auctions (now currentRound clearingPrice : Int)
    (aid : AuctionId) :
    ∀ (ws : List SettleWinner) (s s' : St),
      settleWinnersLoop now currentRound clearingPrice aid s ws = .ok s' →
      s'.auctions = s.auctions
  | [], s, s', h => by
    simp only [settleWinnersLoop, Except.ok.injEq] at h
    rw [← h]
  | w :: rest, s, s', h => by
    unfold settleWinnersLoop at h
    split at h
    · exact Except.noConfusion h
    simp only [] at h
    split at h
    · exact Except.noConfusion h
    have hrec := settleWinnersLoop_auctions now currentRound clearingPrice aid rest _ s' h
    exact hrec

/-- Effect of the `$max`-merge auction update at the end of placeBid on the
clamp invariant: with unique auction ids the matched document is the one the
transaction read, so the merged roundEndsAt is max(current, newEndsAt), and
when newEndsAt does not exceed the current value no roundEndsAt changes. -/
theorem clamp_update_core {sa : List AuctionDoc} {aid : AuctionId}
    {auction ua : AuctionDoc} {auctions' : List AuctionDoc} {rEnd newT now : Int}
    (hfind : sa.find? (fun a => a.id == aid) = some auction)
    (hre : auction.roundEndsAt = some rEnd)
    (hua : findOneAndUpdate
        (fun a => a.id == aid && a.state == AuctionState.running &&
          a.roundState == some RoundState.open')
        (fun a =>
          { a with
            updatedAt := now,
            roundEndsAt := some (max (a.roundEndsAt.getD newT) newT),
            version := a.version + 1 }) sa = some (ua, auctions'))
    (hC : ∀ a ∈ sa, clampOkB a = true)
    (hN : (sa.map (fun a => a.id)).Nodup)
    (hnewT : ∀ e, auction.endsAt = some e → newT ≤ e) :
    (∀ a ∈ auctions', clampOkB a = true) ∧
    (auctions'.map (fun a => a.id)).Nodup ∧
    (newT ≤ rEnd →
      ua.roundEndsAt = auction.roundEndsAt ∧
      auctions'.map (fun a => (a.id, a.roundEndsAt)) =
        sa.map (fun a => (a.id, a.roundEndsAt))) := by
  obtain ⟨l₁, x, l₂, h1, h2, h3, h4, h5⟩ := findOneAndUpdate_eq_some hua
  have hxid : x.id = aid := by
    simp only [Bool.and_eq_true, beq_iff_eq] at h2
    exact h2.1.1
  have haid : auction.id = aid := by
    have h := List.find?_some hfind
    simpa using h
  have hxmem : x ∈ sa := by
    rw [h1]
    exact List.mem_append_right _ (List.mem_cons_self _ _)
  have hamem : auction ∈ sa := List.mem_of_find?_eq_some hfind
  have hxa : x = auction := auction_id_unique hN hxmem hamem (hxid.trans haid.symm)
  subst hxa
  refine ⟨?_, ?_, ?_⟩
  · intro a ha
    rw [h5] at ha
    rcases List.mem_append.mp ha with ha | ha
    · exact hC a (by rw [h1]; exact List.mem_append_left _ ha)
    · rcases List.mem_cons.mp ha with rfl | ha
      · rw [clampOkB_iff]
        intro e r' he hr'
        simp only [] at he hr'
        rw [hre, Option.getD_some] at hr'
        simp only [Option.some.injEq] at hr'
        have h6 : rEnd ≤ e := ((clampOkB_iff x).mp (hC x hxmem)) e rEnd he hre
        have h7 : newT ≤ e := hnewT e he
        rw [← hr']
        exact max_le h6 h7
      · exact hC a (by rw [h1]; exact List.mem_append_right _ (List.mem_cons_of_mem _ ha))
  · have hmap : auctions'.map (fun a => a.id) = sa.map (fun a => a.id) := by
      rw [h5, h1]
      simp
    rw [hmap]
    exact hN
  · intro hle
    constructor
    · rw [h4]
      simp only []
      rw [hre, Option.getD_some, max_eq_left hle]
    · rw [h5, h1]
      simp [hre, max_eq_left hle]

theorem createAuction_clamp {s : St} {input : CreateAuctionInput} {fid : AuctionId}
    {now : Int} {r : St × AuctionDoc}
    (hok : createAuction s input fid now = .ok r)
    (hfr : ∀ a ∈ s.auctions, a.id ≠ fid)
    (hC : ClampInv s) (hN : AuctionIdsNodup s) :
    ClampInv r.1 ∧ AuctionIdsNodup r.1 := by
  unfold createAuction at hok
  split at hok
  · exact Except.noConfusion hok
  split at hok
  · exact Except.noConfusion hok
  simp only [Except.ok.injEq] at hok
  rw [← hok]
  constructor
  · unfold ClampInv
    intro a ha
    rcases List.mem_append.mp ha with ha | ha
    · exact hC a ha
    · rcases List.mem_singleton.mp ha with rfl
      rw [clampOkB_iff]
      intro e r' he hr'
      simp only [] at hr'
      exact Option.noConfusion hr'
  · unfold AuctionIdsNodup
    simp only [List.map_append, List.map_cons, List.map_nil]
    rw [List.nodup_append]
    refine ⟨hN, List.nodup_singleton _, ?_⟩
    intro y hy hy2
    rcases List.mem_singleton.mp hy2 with rfl
    obtain ⟨a, ha, hfa⟩ := List.mem_map.mp hy
    exact hfr a ha hfa

theorem startAuction_clamp {s : St} {aid : AuctionId} {now : Int} {r : St × AuctionDoc}
    (hok : startAuction s aid now = .ok r)
    (hC : ClampInv s) (hN : AuctionIdsNodup s) :
    ClampInv r.1 ∧ AuctionIdsNodup r.1 := by
  unfold startAuction at hok
  split at hok
  · exact Except.noConfusion hok
  rename_i existing hfindE
  split at hok
  · exact Except.noConfusion hok
  try simp only [] at hok
  split at hok
  · exact Except.noConfusion hok
  rename_i auction auctions' hfu
  simp only [Except.ok.injEq] at hok
  rw [← hok]
  have hupd := findOneAndUpdate_updateOne hfu
  constructor
  · unfold ClampInv
    intro a ha
    refine updateOne_forall ?_ hupd hC a ha
    intro x hx _
    rw [clampOkB_iff]
    intro e r' he hr'
    simp only [] at he hr'
    by_cases hmd : 0 < existing.config.maxDurationMs
    · rw [if_pos hmd] at he hr'
      simp only [Option.some.injEq] at he hr'
      split at hr' <;> omega
    · rw [if_neg hmd] at he
      exact Option.noConfusion he
  · unfold AuctionIdsNodup
    simp only []
    have hmap := updateOne_map_congr (fun (a : AuctionDoc) => a.id) hupd (fun x _ => rfl)
    rw [hmap]
    exact hN

theorem cancelAuction_clamp {s : St} {aid : AuctionId} {now : Int} {r : St × AuctionDoc}
    (hok : cancelAuction s aid now = .ok r)
    (hC : ClampInv s) (hN : AuctionIdsNodup s) :
    ClampInv r.1 ∧ AuctionIdsNodup r.1 := by
  unfold cancelAuction at hok
  split at hok
  · exact Except.noConfusion hok
  rename_i auction auctions' hfu
  simp only [] at hok
  split at hok
  · exact Except.noConfusion hok
  rename_i s2 hloop
  simp only [Except.ok.injEq] at hok
  rw [← hok]
  have hupd := findOneAndUpdate_updateOne hfu
  have hs2a' := cancelRefundLoop_auctions now aid _ _ s2 hloop
  have hs2a : s2.auctions = auctions' := hs2a'
  constructor
  · unfold ClampInv
    intro a ha
    rw [hs2a] at ha
    refine updateOne_forall ?_ hupd hC a ha
    intro x hx _
    rw [clampOkB_iff]
    intro e r' he hr'
    simp only [] at hr'
    exact Option.noConfusion hr'
  · unfold AuctionIdsNodup
    simp only []
    have hmap := updateOne_map_congr (fun (a : AuctionDoc) => a.id) hupd (fun x _ => rfl)
    rw [hs2a, hmap]
    exact hN

theorem withdrawBid_clamp {s : St} {aid : AuctionId} {uid : UserId} {now : Int}
    {r : St × BidDoc} (hok : withdrawBid s aid uid now = .ok r)
    (hC : ClampInv s) (hN : AuctionIdsNodup s) :
    ClampInv r.1 ∧ AuctionIdsNodup r.1 := by
  obtain ⟨_, _, _, ⟨a₁, a, a₂, h1, h2⟩, _⟩ := withdrawBid_decomp s aid uid now r.1 r.2 hok
  constructor
  · unfold ClampInv
    intro z hz
    rw [h2] at hz
    rcases List.mem_append.mp hz with hz | hz
    · exact hC z (by rw [h1]; exact List.mem_append_left _ hz)
    · rcases List.mem_cons.mp hz with rfl | hz
      · have ha := hC a (by rw [h1]; exact List.mem_append_right _ (List.mem_cons_self _ _))
        rw [clampOkB_iff] at ha ⊢
        intro e r' he hr'
        simp only [] at he hr'
        exact ha e r' he hr'
      · exact hC z (by rw [h1]; exact List.mem_append_right _ (List.mem_cons_of_mem _ hz))
  · unfold AuctionIdsNodup
    have hmap : ((a₁ ++ { a with updatedAt := now, version := a.version + 1 } :: a₂).map
        (fun x => x.id)) = ((a₁ ++ a :: a₂).map (fun x => x.id)) := by
      simp
    rw [h2, hmap, ← h1]
    exact hN

set_option maxHeartbeats 4000000 in
/-- A successful placeBid preserves the clamp invariant and id-uniqueness,
and with antiSnipeWindowMs = 0 it never changes any auction's roundEndsAt
(neither on the returned document nor in the store). -/
theorem placeBid_clamp {s : St} {aid uid : String} {amt now : Int} {fresh : BidId}
    {r : St × AuctionDoc × BidDoc}
    (hok : placeBid s aid uid amt now fresh = .ok r)
    (hC : ClampInv s) (hN : AuctionIdsNodup s) :
    (ClampInv r.1 ∧ AuctionIdsNodup r.1) ∧
    (∀ auction, s.auctions.find? (fun a => a.id == aid) = some auction →
      auction.config.antiSnipeWindowMs = 0 →
      r.2.1.roundEndsAt = auction.roundEndsAt ∧
      r.1.auctions.map (fun a => (a.id, a.roundEndsAt)) =
        s.auctions.map (fun a => (a.id, a.roundEndsAt))) := by
  unfold placeBid at hok
  split at hok
  · exact Except.noConfusion hok
  rename_i h0
  push_neg at h0
  rcases hfindA : List.find? (fun a => a.id == aid) s.auctions with _ | auction <;>
    simp only [hfindA] at hok
  · exact Except.noConfusion hok
  split at hok
  · exact Except.noConfusion hok
  rcases hre : auction.roundEndsAt with _ | rEnd <;> simp only [hre] at hok
  · exact Except.noConfusion hok
  split at hok
  · exact Except.noConfusion hok
  rename_i hnotEnded
  rcases hfindB : List.find? (fun b => b.auctionId == aid && b.userId == uid) s.bids
    with _ | b <;> simp only [hfindB] at hok
  · rw [if_neg (fun hc : false = true => Bool.noConfusion hc)] at hok
    rw [if_neg (not_le.mpr h0)] at hok
    split at hok
    · exact Except.noConfusion hok
    rename_i users' huu
    try simp only [] at hok
    split at hok
    · exact Except.noConfusion hok
    rename_i ua auctions' hua
    simp only [Except.ok.injEq] at hok
    have hcore := clamp_update_core hfindA hre hua hC hN
      (by intro e he; simp only [he]; split_ifs <;> omega)
    rw [← hok]
    refine ⟨⟨hcore.1, hcore.2.1⟩, ?_⟩
    intro auction0 hfind0 hw
    rw [hfindA] at hfind0
    injection hfind0 with h00
    subst h00
    refine hcore.2.2 ?_
    simp only [hw]
    have hgt : ¬(rEnd - now ≤ (0 : Int)) := by omega
    rw [if_neg hgt]
    rcases hends : auction.endsAt with _ | e <;> simp only [hends]
    · omega
    · split_ifs <;> omega
  · by_cases hact : b.status = BidStatus.active
    · simp only [hact] at hok
      rw [if_neg (by decide :
        ¬(!(BidStatus.active == BidStatus.active) &&
          !(BidStatus.active == BidStatus.withdrawn)) = true)] at hok
      rw [if_pos (by decide : (BidStatus.active == BidStatus.active) = true)] at hok
      split at hok
      · exact Except.noConfusion hok
      rename_i hgt0
      split at hok
      · exact Except.noConfusion hok
      rename_i users' huu
      try simp only [] at hok
      rw [if_pos (by decide : (BidStatus.active == BidStatus.active) = true)] at hok
      split at hok
      · exact Except.noConfusion hok
      rename_i s2 bidr hstep
      split at hstep
      · exact Except.noConfusion hstep
      rename_i bid0 bids' hfu
      simp only [Except.ok.injEq, Prod.mk.injEq] at hstep
      obtain ⟨hs2, hbidr⟩ := hstep
      subst hs2
      try simp only [] at hok
      split at hok
      · exact Except.noConfusion hok
      rename_i ua auctions' hua
      simp only [Except.ok.injEq] at hok
      have hcore := clamp_update_core hfindA hre hua hC hN
        (by intro e he; simp only [he]; split_ifs <;> omega)
      rw [← hok]
      refine ⟨⟨hcore.1, hcore.2.1⟩, ?_⟩
      intro auction0 hfind0 hw
      rw [hfindA] at hfind0
      injection hfind0 with h00
      subst h00
      refine hcore.2.2 ?_
      simp only [hw]
      have hgt : ¬(rEnd - now ≤ (0 : Int)) := by omega
      rw [if_neg hgt]
      rcases hends : auction.endsAt with _ | e <;> simp only [hends]
      · omega
      · split_ifs <;> omega
    · by_cases hwd : b.status = BidStatus.withdrawn
      · simp only [hwd] at hok
        rw [if_neg (by decide :
          ¬(!(BidStatus.withdrawn == BidStatus.active) &&
            !(BidStatus.withdrawn == BidStatus.withdrawn)) = true)] at hok
        rw [if_neg (by decide : ¬(BidStatus.withdrawn == BidStatus.active) = true)] at hok
        rw [if_neg (not_le.mpr h0)] at hok
        split at hok
        · exact Except.noConfusion hok
        rename_i users' huu
        try simp only [] at hok
        rw [if_neg (by decide : ¬(BidStatus.withdrawn == BidStatus.active) = true)] at hok
        split at hok
        · exact Except.noConfusion hok
        rename_i s2 bidr hstep
        split at hstep
        · exact Except.noConfusion hstep
        rename_i bid0 bids' hfu
        simp only [Except.ok.injEq, Prod.mk.injEq] at hstep
        obtain ⟨hs2, hbidr⟩ := hstep
        subst hs2
        try simp only [] at hok
        split at hok
        · exact Except.noConfusion hok
        rename_i ua auctions' hua
        simp only [Except.ok.injEq] at hok
        have hcore := clamp_update_core hfindA hre hua hC hN
          (by intro e he; simp only [he]; split_ifs <;> omega)
        rw [← hok]
        refine ⟨⟨hcore.1, hcore.2.1⟩, ?_⟩
        intro auction0 hfind0 hw
        rw [hfindA] at hfind0
        injection hfind0 with h00
        subst h00
        refine hcore.2.2 ?_
        simp only [hw]
        have hgt : ¬(rEnd - now ≤ (0 : Int)) := by omega
        rw [if_neg hgt]
        rcases hends : auction.endsAt with _ | e <;> simp only [hends]
        · omega
        · split_ifs <;> omega
      · rw [if_pos (by simp [hact, hwd])] at hok
        exact Except.noConfusion hok

set_option maxHeartbeats 2000000 in
/-- A committed settlement transaction preserves the clamp invariant and
id-uniqueness: ending an auction unsets roundEndsAt, and rolling to the next
round sets roundEndsAt to now + roundDurationMs clamped at endsAt. -/
theorem settleBody_clamp {s : St} {aid : AuctionId} {tok : String} {now : Int} {s' : St}
    (hok : settleClosingAuctionBody s aid tok now = .ok s')
    (hC : ClampInv s) (hN : AuctionIdsNodup s) : ClampInv s' ∧ AuctionIdsNodup s' := by
  unfold settleClosingAuctionBody at hok
  rcases hfind : List.find? (settlePred aid tok) s.auctions with _ | auction <;>
    simp only [hfind] at hok
  · simp only [Except.ok.injEq] at hok
    rw [← hok]
    exact ⟨hC, hN⟩
  have haid : auction.id = aid := by
    have h := List.find?_some hfind
    simp only [settlePred, Bool.and_eq_true, beq_iff_eq] at h
    exact h.1.1.1
  have hamem : auction ∈ s.auctions := List.mem_of_find?_eq_some hfind
  rcases hends : auction.endsAt with _ | ae <;> simp only [hends] at hok
  · split at hok
    · exact Except.noConfusion hok
    rename_i hdup
    try simp only [] at hok
    split at hok
    · exact Except.noConfusion hok
    rename_i s2 hloop
    have hs2a' := settleWinnersLoop_auctions now auction.currentRound _ aid _ _ s2 hloop
    have hs2a : s2.auctions = s.auctions := hs2a'
    repeat' first
      | split at hok
      | simp only [] at hok
    all_goals try (exact Except.noConfusion hok)
    all_goals try
      (rename_i x2 auctions' hupd
       simp only [Except.ok.injEq] at hok
       rw [hs2a] at hupd
       obtain ⟨l₁, x, l₂, h1, h2, h3, h5⟩ := updateOne_eq_some hupd
       have hxid : x.id = aid := by
         simp only [Bool.and_eq_true, beq_iff_eq] at h2
         exact h2.1.1
       have hxmem : x ∈ s.auctions := by
         rw [h1]
         exact List.mem_append_right _ (List.mem_cons_self _ _)
       have hxa : x = auction := auction_id_unique hN hxmem hamem (hxid.trans haid.symm)
       subst hxa
       rw [← hok]
       constructor
       · unfold ClampInv
         intro a ha
         try simp only [] at ha
         rw [h5] at ha
         rcases List.mem_append.mp ha with ha | ha
         · exact hC a (by rw [h1]; exact List.mem_append_left _ ha)
         · rcases List.mem_cons.mp ha with rfl | ha
           · rw [clampOkB_iff]
             intro e r' he hr'
             simp only [] at he hr'
             rw [hends] at he
             exact Option.noConfusion he
           · exact hC a
               (by rw [h1]; exact List.mem_append_right _ (List.mem_cons_of_mem _ ha))
       · unfold AuctionIdsNodup
         simp only []
         have hmap := updateOne_map_congr (fun (a : AuctionDoc) => a.id) hupd (fun z _ => rfl)
         rw [hmap]
         exact hN)
    all_goals
      rename_i x1 s3 hrefund x2 auctions' hupd
      have hs3a := endRefundLoop_auctions now aid _ _ s3 hrefund
      simp only [Except.ok.injEq] at hok
      rw [hs3a, hs2a] at hupd
      rw [← hok]
      constructor
      · unfold ClampInv
        intro a ha
        refine updateOne_forall ?_ hupd hC a ha
        intro z hz _
        rw [clampOkB_iff]
        intro e r' he hr'
        simp only [] at hr'
        exact Option.noConfusion hr'
      · unfold AuctionIdsNodup
        simp only []
        have hmap := updateOne_map_congr (fun (a : AuctionDoc) => a.id) hupd (fun z _ => rfl)
        rw [hmap]
        exact hN
  · split at hok
    · exact Except.noConfusion hok
    rename_i hdup
    try simp only [] at hok
    split at hok
    · exact Except.noConfusion hok
    rename_i s2 hloop
    have hs2a' := settleWinnersLoop_auctions now auction.currentRound _ aid _ _ s2 hloop
    have hs2a : s2.auctions = s.auctions := hs2a'
    repeat' first
      | split at hok
      | simp only [] at hok
    all_goals try (exact Except.noConfusion hok)
    all_goals try
      (rename_i x2 auctions' hupd
       simp only [Except.ok.injEq] at hok
       rw [hs2a] at hupd
       obtain ⟨l₁, x, l₂, h1, h2, h3, h5⟩ := updateOne_eq_some hupd
       have hxid : x.id = aid := by
         simp only [Bool.and_eq_true, beq_iff_eq] at h2
         exact h2.1.1
       have hxmem : x ∈ s.auctions := by
         rw [h1]
         exact List.mem_append_right _ (List.mem_cons_self _ _)
       have hxa : x = auction := auction_id_unique hN hxmem hamem (hxid.trans haid.symm)
       subst hxa
       rw [← hok]
       constructor
       · unfold ClampInv
         intro a ha
         try simp only [] at ha
         rw [h5] at ha
         rcases List.mem_append.mp ha with ha | ha
         · exact hC a (by rw [h1]; exact List.mem_append_left _ ha)
         · rcases List.mem_cons.mp ha with rfl | ha
           · rw [clampOkB_iff]
             intro e r' he hr'
             simp only [] at he hr'
             rw [hends] at he
             simp only [Option.some.injEq] at he hr'
             split at hr' <;> omega
           · exact hC a
               (by rw [h1]; exact List.mem_append_right _ (List.mem_cons_of_mem _ ha))
       · unfold AuctionIdsNodup
         simp only []
         have hmap := updateOne_map_congr (fun (a : AuctionDoc) => a.id) hupd (fun z _ => rfl)
         rw [hmap]
         exact hN)
    all_goals
      rename_i x1 s3 hrefund x2 auctions' hupd
      have hs3a := endRefundLoop_auctions now aid _ _ s3 hrefund
      simp only [Except.ok.injEq] at hok
      rw [hs3a, hs2a] at hupd
      rw [← hok]
      constructor
      · unfold ClampInv
        intro a ha
        refine updateOne_forall ?_ hupd hC a ha
        intro z hz _
        rw [clampOkB_iff]
        intro e r' he hr'
        simp only [] at hr'
        exact Option.noConfusion hr'
      · unfold AuctionIdsNodup
        simp only []
        have hmap := updateOne_map_congr (fun (a : AuctionDoc) => a.id) hupd (fun z _ => rfl)
        rw [hmap]
        exact hN

/-- C8: anti-snipe clamp.  From any state where roundEndsAt never exceeds a
set endsAt and auction ids are unique (ObjectIds), every operation — start,
placeBid with its anti-snipe extension, withdraw, cancel, and settlement
whether it ends the auction or rolls to the next round — preserves both
properties, so roundEndsAt ≤ endsAt always; and with antiSnipeWindowMs = 0 a
successful placeBid never extends roundEndsAt: the returned auction document
and every stored auction keep their roundEndsAt unchanged. -/
theorem anti_snipe_clamp (s : St) (op : Op)
    (hC : ClampInv s) (hN : AuctionIdsNodup s) (hfr : opAuctionFresh s op) :
    (ClampInv (applyOp s op) ∧ AuctionIdsNodup (applyOp s op)) ∧
    (∀ aid uid amt now fresh r auction,
      placeBid s aid uid amt now fresh = .ok r →
      s.auctions.find? (fun a => a.id == aid) = some auction →
      auction.config.antiSnipeWindowMs = 0 →
      r.2.1.roundEndsAt = auction.roundEndsAt ∧
      r.1.auctions.map (fun a => (a.id, a.roundEndsAt)) =
        s.auctions.map (fun a => (a.id, a.roundEndsAt))) := by
  constructor
  · cases op with
    | createUser fid now => exact ⟨hC, hN⟩
    | topup uid amt now =>
      simp only [applyOp]
      split
      · rename_i r hok
        have ha := topup_auctions hok
        constructor
        · unfold ClampInv
          rw [ha]
          exact hC
        · unfold AuctionIdsNodup
          rw [ha]
          exact hN
      · exact ⟨hC, hN⟩
    | createAuction input fid now =>
      simp only [applyOp]
      split
      · exact createAuction_clamp (by assumption) hfr hC hN
      · exact ⟨hC, hN⟩
    | startAuction aid now =>
      simp only [applyOp]
      split
      · exact startAuction_clamp (by assumption) hC hN
      · exact ⟨hC, hN⟩
    | cancelAuction aid now =>
      simp only [applyOp]
      split
      · exact cancelAuction_clamp (by assumption) hC hN
      · exact ⟨hC, hN⟩
    | placeBid aid uid amt now fresh =>
      simp only [applyOp]
      split
      · exact (placeBid_clamp (by assumption) hC hN).1
      · exact ⟨hC, hN⟩
    | withdrawBid aid uid now =>
      simp only [applyOp]
      split
      · exact withdrawBid_clamp (by assumption) hC hN
      · exact ⟨hC, hN⟩
    | settleRound aid tok now =>
      simp only [applyOp]
      unfold settleClosingAuction
      split
      · exact settleBody_clamp (by assumption) hC hN
      · exact ⟨hC, hN⟩
  · intro aid uid amt now fresh r auction hok hfind hw
    exact (placeBid_clamp hok hC hN).2 auction hfind hw

def demoStC8 : St :=
  ⟨[⟨"u2", 0, ⟨100, 40, 0⟩, 140⟩],
   [⟨"a8", 0, 0, "t", .running, some 0, some 2000, none, none, 3, 0, 0, 1, 0,
     some .open', some 1000, none, none, 2, ⟨60000, 2, 0, 10000, 1, 0, 3⟩⟩],
   [], [], []⟩

theorem anti_snipe_clamp_witness :
    (ClampInv (applyOp demoStC8 (.placeBid "a8" "u2" 50 5 "b9")) ∧
      AuctionIdsNodup (applyOp demoStC8 (.placeBid "a8" "u2" 50 5 "b9"))) ∧
    (∀ aid uid amt now fresh r auction,
      placeBid demoStC8 aid uid amt now fresh = .ok r →
      demoStC8.auctions.find? (fun a => a.id == aid) = some auction →
      auction.config.antiSnipeWindowMs = 0 →
      r.2.1.roundEndsAt = auction.roundEndsAt ∧
      r.1.auctions.map (fun a => (a.id, a.roundEndsAt)) =
        demoStC8.auctions.map (fun a => (a.id, a.roundEndsAt))) :=
  anti_snipe_clamp demoStC8 (.placeBid "a8" "u2" 50 5 "b9")
    (by unfold ClampInv; decide) (by unfold AuctionIdsNodup; decide)
    (by unfold opAuctionFresh; trivial)

/-! ### Per-winner settlement postcondition (C2) -/

theorem settleWinnersLoop_user_ids (now round cp : Int) (aid : AuctionId) :
    ∀ (ws : List SettleWinner) (s s' : St),
      settleWinnersLoop now round cp aid s ws = .ok s' →
      s'.users.map (fun u => u.id) = s.users.map (fun u => u.id)
  | [], s, s', h => by
    simp only [settleWinnersLoop, Except.ok.injEq] at h
    rw [← h]
  | w :: rest, s, s', h => by
    unfold settleWinnersLoop at h
    rcases h1 : updateOne (fun b => b.id == w.bidId && b.status == BidStatus.active)
        (fun b =>
          { b with
            status := .won, updatedAt := now,
            settlement := some ⟨round, w.giftSerial, cp, w.paid, w.refunded, now⟩ }) s.bids
        with _ | bids' <;> simp only [h1] at h
    · exact Except.noConfusion h
    rcases h2 : updateOne (fun u => u.id == w.userId && decide (w.amount ≤ u.balance.reserved))
        (fun u =>
          { u with
            balance :=
              ⟨u.balance.available + w.refunded, u.balance.reserved - w.amount,
                u.balance.spent + w.paid⟩ }) s.users
        with _ | users' <;> simp only [h2] at h
    · exact Except.noConfusion h
    have hrec := settleWinnersLoop_user_ids now round cp aid rest _ s' h
    have hmap := updateOne_map_congr (fun (u : UserDoc) => u.id) h2 (fun z _ => rfl)
    exact hrec.trans hmap

theorem settleWinnersLoop_user_frame (now round cp : Int) (aid : AuctionId) :
    ∀ (ws : List SettleWinner) (s s' : St),
      settleWinnersLoop now round cp aid s ws = .ok s' →
      ∀ uid : UserId, (∀ w ∈ ws, w.userId ≠ uid) →
        s'.users.find? (fun u => u.id == uid) = s.users.find? (fun u => u.id == uid)
  | [], s, s', h, uid, hni => by
    simp only [settleWinnersLoop, Except.ok.injEq] at h
    rw [← h]
  | w :: rest, s, s', h, uid, hni => by
    unfold settleWinnersLoop at h
    rcases h1 : updateOne (fun b => b.id == w.bidId && b.status == BidStatus.active)
        (fun b =>
          { b with
            status := .won, updatedAt := now,
            settlement := some ⟨round, w.giftSerial, cp, w.paid, w.refunded, now⟩ }) s.bids
        with _ | bids' <;> simp only [h1] at h
    · exact Except.noConfusion h
    rcases h2 : updateOne (fun u => u.id == w.userId && decide (w.amount ≤ u.balance.reserved))
        (fun u =>
          { u with
            balance :=
              ⟨u.balance.available + w.refunded, u.balance.reserved - w.amount,
                u.balance.spent + w.paid⟩ }) s.users
        with _ | users' <;> simp only [h2] at h
    · exact Except.noConfusion h
    have hrec := settleWinnersLoop_user_frame now round cp aid rest _ s' h uid
      (fun z hz => hni z (List.mem_cons_of_mem _ hz))
    have hfr : users'.find? (fun u => u.id == uid) = s.users.find? (fun u => u.id == uid) := by
      refine updateOne_find?_frame h2 ?_
      intro x hx
      simp only [Bool.and_eq_true, beq_iff_eq, decide_eq_true_eq] at hx
      have hne : x.id ≠ uid := by
        rw [hx.1]
        exact hni w (List.mem_cons_self _ _)
      exact ⟨beq_eq_false_iff_ne.mpr hne, beq_eq_false_iff_ne.mpr hne⟩
    exact hrec.trans hfr

/-- The per-winner effect of the settlement loop on user balances: with
unique user ids and pairwise-distinct winner userIds, the loop applies to
each winner's user exactly the predicated delta reserved -= amount,
spent += paid, available += refunded, and success implies the reserve was
sufficient. -/
theorem settleWinnersLoop_effect (now round cp : Int) (aid : AuctionId) :
    ∀ (ws : List SettleWinner) (s s' : St),
      settleWinnersLoop now round cp aid s ws = .ok s' →
      (ws.map (fun w => w.userId)).Nodup →
      (s.users.map (fun u => u.id)).Nodup →
      ∀ w ∈ ws, ∃ u, s.users.find? (fun u0 => u0.id == w.userId) = some u ∧
        w.amount ≤ u.balance.reserved ∧
        s'.users.find? (fun u0 => u0.id == w.userId) =
          some { u with balance :=
            ⟨u.balance.available + w.refunded, u.balance.reserved - w.amount,
              u.balance.spent + w.paid⟩ }
  | [], s, s', h, _, _ => fun w hw => absurd hw (by simp)
  | w0 :: rest, s, s', h, hWN, hUN => by
    unfold settleWinnersLoop at h
    rcases h1 : updateOne (fun b => b.id == w0.bidId && b.status == BidStatus.active)
        (fun b =>
          { b with
            status := .won, updatedAt := now,
            settlement := some ⟨round, w0.giftSerial, cp, w0.paid, w0.refunded, now⟩ }) s.bids
        with _ | bids' <;> simp only [h1] at h
    · exact Except.noConfusion h
    rcases h2 : updateOne
        (fun u => u.id == w0.userId && decide (w0.amount ≤ u.balance.reserved))
        (fun u =>
          { u with
            balance :=
              ⟨u.balance.available + w0.refunded, u.balance.reserved - w0.amount,
                u.balance.spent + w0.paid⟩ }) s.users
        with _ | users' <;> simp only [h2] at h
    · exact Except.noConfusion h
    intro w hw
    obtain ⟨u₁, x, u₂, hsplit, hpx, hpre, husers'⟩ := updateOne_eq_some h2
    simp only [Bool.and_eq_true, beq_iff_eq, decide_eq_true_eq] at hpx
    have hxid_ne : ∀ z ∈ u₁, z.id ≠ x.id := by
      intro z hz heq
      have hUN' := hUN
      rw [hsplit] at hUN'
      simp only [List.map_append, List.map_cons] at hUN'
      rcases List.nodup_append.mp hUN' with ⟨_, _, hdisj⟩
      exact hdisj (List.mem_map_of_mem _ hz) (by rw [heq]; exact List.mem_cons_self _ _)
    have hprefix : ∀ z ∈ u₁, (z.id == w0.userId) = false := by
      intro z hz
      refine beq_eq_false_iff_ne.mpr ?_
      rw [← hpx.1]
      exact hxid_ne z hz
    have hfind_s : s.users.find? (fun u0 => u0.id == w0.userId) = some x := by
      rw [hsplit]
      exact find?_middle_of_pred _ u₁ x u₂ (beq_iff_eq.mpr hpx.1) hprefix
    rcases List.mem_cons.mp hw with rfl | hw
    · refine ⟨x, hfind_s, hpx.2, ?_⟩
      have hrest_uids : ∀ z ∈ rest, z.userId ≠ w.userId := by
        intro z hz heq
        exact (List.nodup_cons.mp hWN).1 (List.mem_map.mpr ⟨z, hz, heq⟩)
      have hframe := settleWinnersLoop_user_frame now round cp aid rest _ s' h
        w.userId hrest_uids
      rw [hframe]
      have hfound : users'.find? (fun u0 => u0.id == w.userId) =
          some { x with balance :=
            ⟨x.balance.available + w.refunded, x.balance.reserved - w.amount,
              x.balance.spent + w.paid⟩ } := by
        rw [husers']
        exact find?_middle_of_pred _ u₁ _ u₂ (beq_iff_eq.mpr hpx.1) hprefix
      exact hfound
    · have hUNr : (users'.map (fun u => u.id)).Nodup := by
        have hmap := updateOne_map_congr (fun (u : UserDoc) => u.id) h2 (fun z _ => rfl)
        rw [hmap]
        exact hUN
      have hrec := settleWinnersLoop_effect now round cp aid rest _ s' h
        (List.nodup_cons.mp hWN).2 hUNr w hw
      obtain ⟨u, hu1, hu2, hu3⟩ := hrec
      refine ⟨u, ?_, hu2, hu3⟩
      have hfr : users'.find? (fun u0 => u0.id == w.userId) =
          s.users.find? (fun u0 => u0.id == w.userId) := by
        refine updateOne_find?_frame h2 ?_
        intro z hz
        simp only [Bool.and_eq_true, beq_iff_eq, decide_eq_true_eq] at hz
        have hne : z.id ≠ w.userId := by
          rw [hz.1]
          intro heq
          exact (List.nodup_cons.mp hWN).1 (List.mem_map.mpr ⟨w, hw, heq.symm⟩)
        exact ⟨beq_eq_false_iff_ne.mpr hne, beq_eq_false_iff_ne.mpr hne⟩
      rw [← hfr]
      exact hu1

/-- The winners of a round have pairwise-distinct userIds, because the
unique (auctionId, userId) index makes userIds unique among an auction's
bids and selection only filters, sorts and truncates that list. -/
theorem winners_userIds_nodup {s : St} {aid : AuctionId} {wc ac cp : Int}
    (hPN : ((s.bids.filter (fun b => b.auctionId == aid)).map
      (fun b => b.userId)).Nodup) :
    ((settleWinners (winnerBidsOf s aid wc) ac cp).map (fun w => w.userId)).Nodup := by
  have henum : ∀ (l : List BidDoc),
      l.enum.map (fun p => p.2.userId) = l.map (fun b => b.userId) := by
    intro l
    rw [show (fun p : Nat × BidDoc => p.2.userId) =
      ((fun b : BidDoc => b.userId) ∘ Prod.snd) from rfl]
    rw [← List.map_map, List.enum_map_snd]
  have hmapeq : (settleWinners (winnerBidsOf s aid wc) ac cp).map (fun w => w.userId) =
      (winnerBidsOf s aid wc).map (fun b => b.userId) := by
    unfold settleWinners
    rw [List.map_map]
    exact henum (winnerBidsOf s aid wc)
  rw [hmapeq]
  have hsub : (s.bids.filter (fun b => b.auctionId == aid &&
      b.status == BidStatus.active)).Sublist
        (s.bids.filter (fun b => b.auctionId == aid)) := by
    refine List.monotone_filter_right s.bids ?_
    intro b hb
    exact (Bool.and_eq_true _ _).mp hb |>.1
  have hN1 : ((s.bids.filter (fun b => b.auctionId == aid &&
      b.status == BidStatus.active)).map (fun b => b.userId)).Nodup :=
    (hsub.map (fun b => b.userId)).nodup hPN
  have hN2 : ((sortedActiveBids s aid).map (fun b => b.userId)).Nodup := by
    unfold sortedActiveBids
    have hperm := List.mergeSort_perm
      (s.bids.filter (fun b => b.auctionId == aid && b.status == BidStatus.active)) bidRankLE
    exact ((hperm.map (fun b => b.userId)).nodup_iff).mpr hN1
  unfold winnerBidsOf
  split
  · exact ((List.take_sublist _ _).map (fun (b : BidDoc) => b.userId)).nodup hN2
  · simp

/-- The per-round winner count computed by the settlement transaction. -/
def winnersCountOf (auction : AuctionDoc) : Int :=
  min auction.config.winnersPerRound (max 0 (auction.totalQuantity - auction.awardedCount))

/-- The winner records of the round the settlement transaction settles. -/
def roundWinnersOf (s : St) (aid : AuctionId) (auction : AuctionDoc) : List SettleWinner :=
  settleWinners (winnerBidsOf s aid (winnersCountOf auction)) auction.awardedCount
    (clearingPriceOf (winnerBidsOf s aid (winnersCountOf auction)))

/-- The clearing price of the round the settlement transaction settles. -/
def roundClearingPriceOf (s : St) (aid : AuctionId) (auction : AuctionDoc) : Int :=
  clearingPriceOf (winnerBidsOf s aid (winnersCountOf auction))

set_option maxHeartbeats 1000000 in
/-- C2: settlement financial postcondition.  When the settlement transaction
re-reads its closing auction and commits, the per-winner loop it ran (on the
state right after the Round insert, whose users are those of s) gives every
winner of the settled round paid = clearingPrice and
refunded = amount − clearingPrice ≥ 0, and changes exactly that winner's
user balance by reserved −= amount, spent += paid, available += refunded —
predicated on reserved ≥ amount, whose violation would instead abort the
transaction as a fatal invariant violation.  The uniqueness hypotheses
mirror the unique _id and (auctionId, userId) indexes. -/
theorem settlement_financial_postcondition (s : St) (aid : AuctionId) (tok : String)
    (now : Int) (auction : AuctionDoc) {s' : St}
    (hfind : s.auctions.find? (settlePred aid tok) = some auction)
    (hok : settleClosingAuctionBody s aid tok now = .ok s')
    (hUN : (s.users.map (fun u => u.id)).Nodup)
    (hPN : ((s.bids.filter (fun b => b.auctionId == aid)).map
      (fun b => b.userId)).Nodup) :
    ∃ s2, settleWinnersLoop now auction.currentRound
        (roundClearingPriceOf s aid auction) aid
        { s with rounds := s.rounds ++
          [⟨aid, auction.currentRound, now, roundClearingPriceOf s aid auction,
            (roundWinnersOf s aid auction).map
              (fun w0 => ⟨w0.userId, w0.amount, w0.giftSerial, w0.paid, w0.refunded⟩)⟩] }
        (roundWinnersOf s aid auction) = .ok s2 ∧
      ∀ w ∈ roundWinnersOf s aid auction,
        w.paid = roundClearingPriceOf s aid auction ∧
        w.refunded = w.amount - w.paid ∧
        0 ≤ w.refunded ∧
        ∃ u, s.users.find? (fun u0 => u0.id == w.userId) = some u ∧
          w.amount ≤ u.balance.reserved ∧
          s2.users.find? (fun u0 => u0.id == w.userId) =
            some { u with balance :=
              ⟨u.balance.available + w.refunded, u.balance.reserved - w.amount,
                u.balance.spent + w.paid⟩ } := by
  unfold settleClosingAuctionBody at hok
  simp only [hfind] at hok
  rcases hends : auction.endsAt with _ | ae <;> simp only [hends] at hok <;>
  · split at hok
    · exact Except.noConfusion hok
    rename_i hdup
    try simp only [] at hok
    split at hok
    · exact Except.noConfusion hok
    rename_i s2 hloop
    refine ⟨s2, hloop, ?_⟩
    intro w hw
    obtain ⟨b, hbmem, hamt, hpaid, href, _, _⟩ := settleWinners_mem hw
    have hle := clearingPriceOf_le (winnerBidsOf_sorted s aid (winnersCountOf auction)) hbmem
    have heff := settleWinnersLoop_effect now auction.currentRound
      (roundClearingPriceOf s aid auction) aid (roundWinnersOf s aid auction) _ s2 hloop
      (winners_userIds_nodup hPN) hUN w hw
    obtain ⟨u, hu1, hu2, hu3⟩ := heff
    exact ⟨hpaid, by omega, by omega, u, hu1, hu2, hu3⟩

def demoAuctionC2 : AuctionDoc :=
  ⟨"a1", 0, 0, "t", .running, some 0, none, none, none, 3, 0, 0, 1, 0,
    some .closing, some 1000, some "tok1", some 900, 2, ⟨60000, 2, 10000, 10000, 1, 0, 3⟩⟩

def demoStC2 : St :=
  ⟨[⟨"u2", 0, ⟨60, 40, 0⟩, 100⟩], [demoAuctionC2],
   [⟨"b2", "a1", "u2", 40, .active, 0, 0, 0, none⟩], [], []⟩

/-- The committed state of the demo settlement, computed once so the
witness can name it. -/
def demoStC2After : St :=
  ⟨[⟨"u2", 0, ⟨60, 0, 40⟩, 100⟩],
   [⟨"a1", 0, 960, "t", .running, some 0, none, none, none, 3, 1, 40, 2, 0,
     some .open', some 60960, none, none, 3, ⟨60000, 2, 10000, 10000, 1, 0, 3⟩⟩],
   [⟨"b2", "a1", "u2", 40, .won, 0, 960, 0, some ⟨1, 1, 40, 40, 0, 960⟩⟩],
   [⟨"a1", 1, 960, 40, [⟨"u2", 40, 1, 40, 0⟩]⟩],
   [⟨960, "u2", .spend, 40, some "a1"⟩]⟩

theorem demo_body_eval : settleClosingAuctionBody demoStC2 "a1" "tok1" 960 =
    .ok demoStC2After := by
  simp +decide [settleClosingAuctionBody, demoStC2, demoAuctionC2, demoStC2After,
    settlePred, winnerBidsOf, sortedActiveBids, List.mergeSort, bidRankLE,
    clearingPriceOf, settleWinners, settleWinnersLoop, endRefundLoop,
    updateOne, findOneAndUpdate]

theorem settlement_financial_postcondition_witness :
    ∃ s2, settleWinnersLoop 960 demoAuctionC2.currentRound
        (roundClearingPriceOf demoStC2 "a1" demoAuctionC2) "a1"
        { demoStC2 with rounds := demoStC2.rounds ++
          [⟨"a1", demoAuctionC2.currentRound, 960,
            roundClearingPriceOf demoStC2 "a1" demoAuctionC2,
            (roundWinnersOf demoStC2 "a1" demoAuctionC2).map
              (fun w0 => ⟨w0.userId, w0.amount, w0.giftSerial, w0.paid, w0.refunded⟩)⟩] }
        (roundWinnersOf demoStC2 "a1" demoAuctionC2) = .ok s2 ∧
      ∀ w ∈ roundWinnersOf demoStC2 "a1" demoAuctionC2,
        w.paid = roundClearingPriceOf demoStC2 "a1" demoAuctionC2 ∧
        w.refunded = w.amount - w.paid ∧
        0 ≤ w.refunded ∧
        ∃ u, demoStC2.users.find? (fun u0 => u0.id == w.userId) = some u ∧
          w.amount ≤ u.balance.reserved ∧
          s2.users.find? (fun u0 => u0.id == w.userId) =
            some { u with balance :=
              ⟨u.balance.available + w.refunded, u.balance.reserved - w.amount,
                u.balance.spent + w.paid⟩ } :=
  settlement_financial_postcondition demoStC2 "a1" "tok1" 960 demoAuctionC2 rfl
    demo_body_eval (by decide) (by decide)

/-! ### Gift serial invariant (C5) -/

/-- How many won bids of the auction carry gift serial n. -/
def wonSerialCount (bids : List BidDoc) (aid : AuctionId) (n : Int) : Nat :=
  (bids.filter (fun b => b.auctionId == aid && b.status == BidStatus.won)).countP
    (fun b => b.settlement.map (fun t => t.giftSerial) == some n)

/-- P5: per auction, awardedCount is nonnegative and the serials of won
bids are exactly 1, …, awardedCount, each occurring exactly once. -/
def GiftSerialInv (s : St) : Prop :=
  ∀ a ∈ s.auctions, 0 ≤ a.awardedCount ∧ ∀ n : Int,
    wonSerialCount s.bids a.id n = if 1 ≤ n ∧ n ≤ a.awardedCount then 1 else 0

/-- Updating documents a filter rejects before and after the update leaves
the filtered list unchanged. -/
theorem updateOne_filter_frame {α : Type} {p q : α → Bool} {f : α → α}
    {l l' : List α} (h : updateOne p f l = some l')
    (hq : ∀ x, p x = true → q x = false ∧ q (f x) = false) :
    l'.filter q = l.filter q := by
  obtain ⟨l₁, x, l₂, h1, h2, _, h4⟩ := updateOne_eq_some h
  rw [h1, h4]
  simp only [List.filter_append, List.filter_cons, (hq x h2).1, (hq x h2).2]
  simp

theorem settleWinners_length (wb : List BidDoc) (ac cp : Int) :
    (settleWinners wb ac cp).length = wb.length := by
  unfold settleWinners
  simp

theorem settleWinners_serial_count (wb : List BidDoc) (ac cp n : Int) :
    (settleWinners wb ac cp).countP (fun w => w.giftSerial == n) =
      if ac + 1 ≤ n ∧ n ≤ ac + (wb.length : Int) then 1 else 0 := by
  unfold settleWinners
  rw [List.countP_map]
  have hgen : ∀ (k : Nat) (l : List BidDoc),
      (l.enumFrom k).countP
        ((fun w : SettleWinner => w.giftSerial == n) ∘ (fun p : Nat × BidDoc =>
          (⟨p.2.id, p.2.userId, p.2.amount, ac + (p.1 : Int) + 1, cp,
            p.2.amount - cp⟩ : SettleWinner))) =
        if ac + (k : Int) + 1 ≤ n ∧ n ≤ ac + (k : Int) + (l.length : Int) then 1
        else 0 := by
    intro k l
    induction l generalizing k with
    | nil =>
      simp only [List.enumFrom, List.countP_nil, List.length_nil]
      rw [if_neg (by omega)]
    | cons b bs ih =>
      rw [List.enumFrom_cons, List.countP_cons, ih (k + 1)]
      simp only [Function.comp, List.length_cons, beq_iff_eq]
      split_ifs <;> push_cast at * <;> omega
  have h0 := hgen 0 wb
  simpa using h0

theorem some_beq_some_int (a b : Int) : ((some a : Option Int) == some b) = (a == b) := rfl

/-- Count effect of the CAS that flips one winner bid to won with its gift
serial: with unique bid ids the matched document is the winner's bid, so
exactly one won serial is added for that bid's auction. -/
theorem updateOne_won_count {l l' : List BidDoc} {wBidId : BidId}
    {round serial cp paid refunded now : Int}
    (h : updateOne (fun b => b.id == wBidId && b.status == BidStatus.active)
      (fun b =>
        { b with
          status := .won, updatedAt := now,
          settlement := some ⟨round, serial, cp, paid, refunded, now⟩ }) l = some l')
    (hBN : (l.map (fun b => b.id)).Nodup)
    {bid0 : BidDoc} (hb0 : bid0 ∈ l) (hb0id : bid0.id = wBidId) :
    ∀ (aid' : AuctionId) (n : Int),
      wonSerialCount l' aid' n =
        wonSerialCount l aid' n +
          (if aid' = bid0.auctionId then (if (serial == n) = true then 1 else 0)
           else 0) := by
  obtain ⟨l₁, x, l₂, hsplit, hpx, hpre, hl'⟩ := updateOne_eq_some h
  simp only [Bool.and_eq_true, beq_iff_eq] at hpx
  have hxmem : x ∈ l := by
    rw [hsplit]
    exact List.mem_append_right _ (List.mem_cons_self _ _)
  have hxb0 : x = bid0 := List.inj_on_of_nodup_map hBN hxmem hb0 (by rw [hpx.1, hb0id])
  subst hxb0
  intro aid' n
  rw [hsplit, hl']
  unfold wonSerialCount
  simp only [List.filter_append, List.filter_cons]
  by_cases haid : aid' = x.auctionId
  · subst haid
    simp [List.countP_append, List.countP_cons, some_beq_some_int, hpx.2]
    omega
  · have hc : (x.auctionId == aid') = false :=
      beq_eq_false_iff_ne.mpr (fun hh => haid hh.symm)
    simp [List.countP_append, List.countP_cons, hc, haid]

theorem winners_bidIds_nodup {s : St} {aid : AuctionId} {wc ac cp : Int}
    (hBN : (s.bids.map (fun b => b.id)).Nodup) :
    ((settleWinners (winnerBidsOf s aid wc) ac cp).map (fun w => w.bidId)).Nodup := by
  have henum : ∀ (l : List BidDoc),
      l.enum.map (fun p => p.2.id) = l.map (fun b => b.id) := by
    intro l
    rw [show (fun p : Nat × BidDoc => p.2.id) =
      ((fun b : BidDoc => b.id) ∘ Prod.snd) from rfl]
    rw [← List.map_map, List.enum_map_snd]
  have hmapeq : (settleWinners (winnerBidsOf s aid wc) ac cp).map (fun w => w.bidId) =
      (winnerBidsOf s aid wc).map (fun b => b.id) := by
    unfold settleWinners
    rw [List.map_map]
    exact henum (winnerBidsOf s aid wc)
  rw [hmapeq]
  have hN1 : ((s.bids.filter (fun b => b.auctionId == aid &&
      b.status == BidStatus.active)).map (fun b => b.id)).Nodup :=
    ((List.filter_sublist s.bids).map (fun b => b.id)).nodup hBN
  have hN2 : ((sortedActiveBids s aid).map (fun b => b.id)).Nodup := by
    unfold sortedActiveBids
    have hperm := List.mergeSort_perm
      (s.bids.filter (fun b => b.auctionId == aid && b.status == BidStatus.active))
      bidRankLE
    exact ((hperm.map (fun b => b.id)).nodup_iff).mpr hN1
  unfold winnerBidsOf
  split
  · exact ((List.take_sublist _ _).map (fun (b : BidDoc) => b.id)).nodup hN2
  · simp

/-- Serial-count effect of the whole winner loop: it adds, for the settled
auction only, exactly the winners' serials. -/
theorem settleWinnersLoop_serial_count (now round cp : Int) (aid : AuctionId) :
    ∀ (ws : List SettleWinner) (s s' : St),
      settleWinnersLoop now round cp aid s ws = .ok s' →
      (s.bids.map (fun b => b.id)).Nodup →
      (ws.map (fun w => w.bidId)).Nodup →
      (∀ w ∈ ws, ∃ b ∈ s.bids, b.id = w.bidId ∧ b.auctionId = aid ∧
        b.status = BidStatus.active) →
      ∀ (aid' : AuctionId) (n : Int),
        wonSerialCount s'.bids aid' n =
          wonSerialCount s.bids aid' n +
            (if aid' = aid then ws.countP (fun w => w.giftSerial == n) else 0)
  | [], s, s', h, _, _, _ => by
    simp only [settleWinnersLoop, Except.ok.injEq] at h
    intro aid' n
    rw [← h]
    simp
  | w0 :: rest, s, s', h, hBN, hWN, hex => by
    unfold settleWinnersLoop at h
    rcases h1 : updateOne (fun b => b.id == w0.bidId && b.status == BidStatus.active)
        (fun b =>
          { b with
            status := .won, updatedAt := now,
            settlement := some ⟨round, w0.giftSerial, cp, w0.paid, w0.refunded, now⟩ })
        s.bids with _ | bids' <;> simp only [h1] at h
    · exact Except.noConfusion h
    rcases h2 : updateOne
        (fun u => u.id == w0.userId && decide (w0.amount ≤ u.balance.reserved))
        (fun u =>
          { u with
            balance :=
              ⟨u.balance.available + w0.refunded, u.balance.reserved - w0.amount,
                u.balance.spent + w0.paid⟩ }) s.users
        with _ | users' <;> simp only [h2] at h
    · exact Except.noConfusion h
    obtain ⟨b0, hb0mem, hb0id, hb0aid, hb0act⟩ := hex w0 (List.mem_cons_self _ _)
    have hstep := updateOne_won_count h1 hBN hb0mem hb0id
    obtain ⟨l₁, x, l₂, hsplit, hpx, hpre, hbids'⟩ := updateOne_eq_some h1
    simp only [Bool.and_eq_true, beq_iff_eq] at hpx
    have hxmem : x ∈ s.bids := by
      rw [hsplit]
      exact List.mem_append_right _ (List.mem_cons_self _ _)
    have hxb0 : x = b0 := List.inj_on_of_nodup_map hBN hxmem hb0mem
      (by rw [hpx.1, hb0id])
    have hbids_ids : (bids'.map (fun b => b.id)).Nodup := by
      have hmap := updateOne_map_congr (fun (b : BidDoc) => b.id) h1 (fun z _ => rfl)
      rw [hmap]
      exact hBN
    have hex' : ∀ w ∈ rest, ∃ b ∈ bids', b.id = w.bidId ∧ b.auctionId = aid ∧
        b.status = BidStatus.active := by
      intro w hw
      obtain ⟨b, hbmem, hbid, hbaid, hbact⟩ := hex w (List.mem_cons_of_mem _ hw)
      have hbne : b ≠ x := by
        intro heq
        have hidw : w.bidId = w0.bidId := by rw [← hbid, heq, hpx.1]
        exact (List.nodup_cons.mp hWN).1 (List.mem_map.mpr ⟨w, hw, hidw⟩)
      refine ⟨b, ?_, hbid, hbaid, hbact⟩
      rw [hbids']
      rw [hsplit] at hbmem
      rcases List.mem_append.mp hbmem with hb | hb
      · exact List.mem_append_left _ hb
      · rcases List.mem_cons.mp hb with hb | hb
        · exact absurd hb hbne
        · exact List.mem_append_right _ (List.mem_cons_of_mem _ hb)
    have hrec := settleWinnersLoop_serial_count now round cp aid rest _ s' h
      hbids_ids (List.nodup_cons.mp hWN).2 hex'
    intro aid' n
    have hthis : wonSerialCount s'.bids aid' n =
        wonSerialCount bids' aid' n +
          (if aid' = aid then rest.countP (fun w => w.giftSerial == n) else 0) :=
      hrec aid' n
    rw [hthis, hstep aid' n, List.countP_cons, hb0aid]
    by_cases haid : aid' = aid <;> simp [haid] <;> omega

/-- The end-of-auction refund loop flips active bids to lost and therefore
never changes won-bid serial counts, for any auction. -/
theorem endRefundLoop_serial_count (now : Int) (aid : AuctionId) :
    ∀ (bs : List BidDoc) (s s' : St),
      endRefundLoop now aid s bs = .ok s' →
      ∀ (aid' : AuctionId) (n : Int),
        wonSerialCount s'.bids aid' n = wonSerialCount s.bids aid' n
  | [], s, s', h => by
    simp only [endRefundLoop, Except.ok.injEq] at h
    intro aid' n
    rw [← h]
  | b :: rest, s, s', h => by
    unfold endRefundLoop at h
    rcases h1 : updateOne (fun x => x.id == b.id && x.status == BidStatus.active)
        (fun x => { x with status := .lost, updatedAt := now }) s.bids
        with _ | bids' <;> simp only [h1] at h
    · exact Except.noConfusion h
    rcases h2 : updateOne (fun u => u.id == b.userId && decide (b.amount ≤ u.balance.reserved))
        (fun u =>
          { u with
            balance :=
              { u.balance with
                reserved := u.balance.reserved - b.amount,
                available := u.balance.available + b.amount } }) s.users
        with _ | users' <;> simp only [h2] at h
    · exact Except.noConfusion h
    intro aid' n
    have hrec : wonSerialCount s'.bids aid' n = wonSerialCount bids' aid' n :=
      endRefundLoop_serial_count now aid rest _ s' h aid' n
    have hfr : wonSerialCount bids' aid' n = wonSerialCount s.bids aid' n := by
      unfold wonSerialCount
      rw [updateOne_filter_frame h1 (by
        intro x hx
        simp only [Bool.and_eq_true, beq_iff_eq] at hx
        constructor
        · simp [hx.2]
        · simp)]
    exact hrec.trans hfr

/-- The i-th winner (0-based) is assigned serial awardedCount + i + 1. -/
theorem roundWinners_serial_formula (s : St) (aid : AuctionId) (auction : AuctionDoc) :
    ∀ (i : Nat) (hi : i < (roundWinnersOf s aid auction).length),
      ((roundWinnersOf s aid auction).get ⟨i, hi⟩).giftSerial =
        auction.awardedCount + (i : Int) + 1 := by
  intro i hi
  unfold roundWinnersOf settleWinners at hi ⊢
  rw [List.get_eq_getElem, List.getElem_map, List.getElem_enum]

set_option maxHeartbeats 4000000 in
/-- C5: gift serial invariant.  The i-th winner (0-based) of the settled
round is assigned serial awardedCount + i + 1; the committed transaction
advances the auction's awardedCount by exactly the number of winners; and
the invariant that every auction's won-bid serials are exactly
1, …, awardedCount, each unique, is preserved — for the settled auction the
new serials extend the range, for every other auction nothing changes.  The
uniqueness hypotheses mirror the unique _id indexes. -/
theorem gift_serial_invariant (s : St) (aid : AuctionId) (tok : String) (now : Int)
    (auction : AuctionDoc) {s' : St}
    (hfind : s.auctions.find? (settlePred aid tok) = some auction)
    (hok : settleClosingAuctionBody s aid tok now = .ok s')
    (hG : GiftSerialInv s)
    (hAN : AuctionIdsNodup s)
    (hBN : (s.bids.map (fun b => b.id)).Nodup) :
    (∀ (i : Nat) (hi : i < (roundWinnersOf s aid auction).length),
      ((roundWinnersOf s aid auction).get ⟨i, hi⟩).giftSerial =
        auction.awardedCount + (i : Int) + 1) ∧
    (∃ a' ∈ s'.auctions, a'.id = aid ∧
      a'.awardedCount =
        auction.awardedCount + ((roundWinnersOf s aid auction).length : Int)) ∧
    GiftSerialInv s' := by
  have haid : auction.id = aid := by
    have h := List.find?_some hfind
    simp only [settlePred, Bool.and_eq_true, beq_iff_eq] at h
    exact h.1.1.1
  have hamem : auction ∈ s.auctions := List.mem_of_find?_eq_some hfind
  have hex : ∀ w ∈ roundWinnersOf s aid auction, ∃ b ∈ s.bids, b.id = w.bidId ∧
      b.auctionId = aid ∧ b.status = BidStatus.active := by
    intro w hw
    obtain ⟨b, hbmem, _, _, _, hbid, _⟩ := settleWinners_mem hw
    obtain ⟨hmem, hpred⟩ := winnerBidsOf_subset b hbmem
    simp only [Bool.and_eq_true, beq_iff_eq] at hpred
    exact ⟨b, hmem, hbid.symm, hpred.1, hpred.2⟩
  refine ⟨roundWinners_serial_formula s aid auction, ?_⟩
  unfold settleClosingAuctionBody at hok
  simp only [hfind] at hok
  rcases hends : auction.endsAt with _ | ae <;> simp only [hends] at hok <;>
  · split at hok
    · exact Except.noConfusion hok
    rename_i hdup
    try simp only [] at hok
    split at hok
    · exact Except.noConfusion hok
    rename_i s2 hloop
    have hs2a' := settleWinnersLoop_auctions now auction.currentRound _ aid _ _ s2 hloop
    have hs2a : s2.auctions = s.auctions := hs2a'
    have hcnt' := settleWinnersLoop_serial_count now auction.currentRound _ aid _ _ s2
      hloop hBN (winners_bidIds_nodup hBN) hex
    have hcnt : ∀ (aid' : AuctionId) (n : Int),
        wonSerialCount s2.bids aid' n =
          wonSerialCount s.bids aid' n +
            (if aid' = aid then
              (roundWinnersOf s aid auction).countP (fun w => w.giftSerial == n)
            else 0) := hcnt'
    repeat' first
      | split at hok
      | simp only [] at hok
    all_goals try (exact Except.noConfusion hok)
    all_goals try
      (rename_i x2 auctions' hupd
       simp only [Except.ok.injEq] at hok
       rw [hs2a] at hupd
       obtain ⟨l₁, x, l₂, h1, h2, h3, h5⟩ := updateOne_eq_some hupd
       simp only [Bool.and_eq_true, beq_iff_eq] at h2
       have hxmem : x ∈ s.auctions := by
         rw [h1]
         exact List.mem_append_right _ (List.mem_cons_self _ _)
       have hxa : x = auction := auction_id_unique hAN hxmem hamem (by rw [h2.1.1, haid])
       subst hxa
       rw [← hok]
       constructor
       · have hmemfx : ∃ y ∈ auctions', y.id = aid ∧
             y.awardedCount = x.awardedCount + ((roundWinnersOf s aid x).length : Int) := by
           rw [h5]
           refine ⟨_, List.mem_append_right _ (List.mem_cons_self _ _), ?_, ?_⟩
           · exact haid
           · exact rfl
         exact hmemfx
       · unfold GiftSerialInv
         intro a' ha'
         try simp only [] at ha'
         rw [h5] at ha'
         rcases List.mem_append.mp ha' with ha' | ha'
         · have hane : a'.id ≠ aid := by
             intro heq
             have hAN' := hAN
             unfold AuctionIdsNodup at hAN'
             rw [h1] at hAN'
             simp only [List.map_append, List.map_cons] at hAN'
             rcases List.nodup_append.mp hAN' with ⟨_, _, hdisj⟩
             exact hdisj (List.mem_map.mpr ⟨a', ha', rfl⟩)
               (by rw [heq, ← haid]; exact List.mem_cons_self _ _)
           have hmemS : a' ∈ s.auctions := by
             rw [h1]
             exact List.mem_append_left _ ha'
           refine ⟨(hG a' hmemS).1, ?_⟩
           intro n
           have hfin : wonSerialCount s2.bids a'.id n = wonSerialCount s.bids a'.id n := by
             rw [hcnt _ n, if_neg hane]
             omega
           exact hfin.trans ((hG a' hmemS).2 n)
         · rcases List.mem_cons.mp ha' with rfl | ha'
           · have hx0 := (hG x hxmem).1
             constructor
             · simp only []
               omega
             · intro n
               show wonSerialCount s2.bids x.id n =
                 if 1 ≤ n ∧ n ≤ x.awardedCount + ((roundWinnersOf s aid x).length : Int)
                 then 1 else 0
               rw [haid]
               have hc2 : wonSerialCount s2.bids aid n =
                   wonSerialCount s.bids aid n +
                     (roundWinnersOf s aid x).countP (fun w => w.giftSerial == n) := by
                 rw [hcnt _ n, if_pos rfl]
               have hold := (hG x hxmem).2 n
               rw [haid] at hold
               have hwc : (roundWinnersOf s aid x).countP (fun w => w.giftSerial == n) =
                   if x.awardedCount + 1 ≤ n ∧
                     n ≤ x.awardedCount +
                       ((winnerBidsOf s aid (winnersCountOf x)).length : Int)
                   then 1 else 0 :=
                 settleWinners_serial_count (winnerBidsOf s aid (winnersCountOf x))
                   x.awardedCount (roundClearingPriceOf s aid x) n
               have hlen : (roundWinnersOf s aid x).length =
                   (winnerBidsOf s aid (winnersCountOf x)).length :=
                 settleWinners_length (winnerBidsOf s aid (winnersCountOf x))
                   x.awardedCount (roundClearingPriceOf s aid x)
               rw [← hlen] at hwc
               rw [hc2, hold, hwc]
               split_ifs <;> omega
           · have hane : a'.id ≠ aid := by
               intro heq
               have hAN' := hAN
               unfold AuctionIdsNodup at hAN'
               rw [h1] at hAN'
               simp only [List.map_append, List.map_cons] at hAN'
               rcases List.nodup_append.mp hAN' with ⟨_, hr, _⟩
               exact (List.nodup_cons.mp hr).1
                 (List.mem_map.mpr ⟨a', ha', heq.trans haid.symm⟩)
             have hmemS : a' ∈ s.auctions := by
               rw [h1]
               exact List.mem_append_right _ (List.mem_cons_of_mem _ ha')
             refine ⟨(hG a' hmemS).1, ?_⟩
             intro n
             have hfin : wonSerialCount s2.bids a'.id n =
                 wonSerialCount s.bids a'.id n := by
               rw [hcnt _ n, if_neg hane]
               omega
             exact hfin.trans ((hG a' hmemS).2 n))
    all_goals
      rename_i x1 s3 hrefund x2 auctions' hupd
      have hs3a := endRefundLoop_auctions now aid _ _ s3 hrefund
      have hcnt3 : ∀ (aid' : AuctionId) (n : Int),
          wonSerialCount s3.bids aid' n = wonSerialCount s2.bids aid' n :=
        endRefundLoop_serial_count now aid _ _ s3 hrefund
      simp only [Except.ok.injEq] at hok
      rw [hs3a, hs2a] at hupd
      obtain ⟨l₁, x, l₂, h1, h2, h3, h5⟩ := updateOne_eq_some hupd
      simp only [Bool.and_eq_true, beq_iff_eq] at h2
      have hxmem : x ∈ s.auctions := by
        rw [h1]
        exact List.mem_append_right _ (List.mem_cons_self _ _)
      have hxa : x = auction := auction_id_unique hAN hxmem hamem (by rw [h2.1.1, haid])
      subst hxa
      rw [← hok]
      constructor
      · have hmemfx : ∃ y ∈ auctions', y.id = aid ∧
            y.awardedCount = x.awardedCount + ((roundWinnersOf s aid x).length : Int) := by
          rw [h5]
          refine ⟨_, List.mem_append_right _ (List.mem_cons_self _ _), ?_, ?_⟩
          · exact haid
          · exact rfl
        exact hmemfx
      · unfold GiftSerialInv
        intro a' ha'
        try simp only [] at ha'
        rw [h5] at ha'
        rcases List.mem_append.mp ha' with ha' | ha'
        · have hane : a'.id ≠ aid := by
            intro heq
            have hAN' := hAN
            unfold AuctionIdsNodup at hAN'
            rw [h1] at hAN'
            simp only [List.map_append, List.map_cons] at hAN'
            rcases List.nodup_append.mp hAN' with ⟨_, _, hdisj⟩
            exact hdisj (List.mem_map.mpr ⟨a', ha', rfl⟩)
              (by rw [heq, ← haid]; exact List.mem_cons_self _ _)
          have hmemS : a' ∈ s.auctions := by
            rw [h1]
            exact List.mem_append_left _ ha'
          refine ⟨(hG a' hmemS).1, ?_⟩
          intro n
          have hfin : wonSerialCount s3.bids a'.id n = wonSerialCount s.bids a'.id n := by
            rw [hcnt3 _ n, hcnt _ n, if_neg hane]
            omega
          exact hfin.trans ((hG a' hmemS).2 n)
        · rcases List.mem_cons.mp ha' with rfl | ha'
          · have hx0 := (hG x hxmem).1
            constructor
            · simp only []
              omega
            · intro n
              show wonSerialCount s3.bids x.id n =
                if 1 ≤ n ∧ n ≤ x.awardedCount + ((roundWinnersOf s aid x).length : Int)
                then 1 else 0
              rw [haid]
              have hc2 : wonSerialCount s3.bids aid n =
                  wonSerialCount s.bids aid n +
                    (roundWinnersOf s aid x).countP (fun w => w.giftSerial == n) := by
                rw [hcnt3 _ n, hcnt _ n, if_pos rfl]
              have hold := (hG x hxmem).2 n
              rw [haid] at hold
              have hwc : (roundWinnersOf s aid x).countP (fun w => w.giftSerial == n) =
                  if x.awardedCount + 1 ≤ n ∧
                    n ≤ x.awardedCount +
                      ((winnerBidsOf s aid (winnersCountOf x)).length : Int)
                  then 1 else 0 :=
                settleWinners_serial_count (winnerBidsOf s aid (winnersCountOf x))
                  x.awardedCount (roundClearingPriceOf s aid x) n
              have hlen : (roundWinnersOf s aid x).length =
                  (winnerBidsOf s aid (winnersCountOf x)).length :=
                settleWinners_length (winnerBidsOf s aid (winnersCountOf x))
                  x.awardedCount (roundClearingPriceOf s aid x)
              rw [← hlen] at hwc
              rw [hc2, hold, hwc]
              split_ifs <;> omega
          · have hane : a'.id ≠ aid := by
              intro heq
              have hAN' := hAN
              unfold AuctionIdsNodup at hAN'
              rw [h1] at hAN'
              simp only [List.map_append, List.map_cons] at hAN'
              rcases List.nodup_append.mp hAN' with ⟨_, hr, _⟩
              exact (List.nodup_cons.mp hr).1
                (List.mem_map.mpr ⟨a', ha', heq.trans haid.symm⟩)
            have hmemS : a' ∈ s.auctions := by
              rw [h1]
              exact List.mem_append_right _ (List.mem_cons_of_mem _ ha')
            refine ⟨(hG a' hmemS).1, ?_⟩
            intro n
            have hfin : wonSerialCount s3.bids a'.id n =
                wonSerialCount s.bids a'.id n := by
              rw [hcnt3 _ n, hcnt _ n, if_neg hane]
              omega
            exact hfin.trans ((hG a' hmemS).2 n)

end CryptoBot
